import Mathlib

/-!
cert-alert: a shallow embedding of the ingestion engine.

The definitions below follow `config.go`, `logs.go` and `main.go`.  Go strings are
Lean strings, `int64` values are integers with explicit wrap-around, goroutine
bodies are state transformers, and the calls into libraries the repository only
imports (HTTP, JSON and YAML decoding, `regexp`, `gobwas/glob`, `shoutrrr`,
`certificate-transparency-go`, `crypto/x509`) are either small executable models
of the documented behaviour or explicit parameters.
-/

namespace CertAlert

/-! ## Machine integers -/

/-- Two's-complement wrap-around of an integer into the `int64` range. -/
def wrap64 (x : Int) : Int :=
  (x + 9223372036854775808) % 18446744073709551616 - 9223372036854775808

/-- Membership in the `int64` range. -/
def isInt64 (x : Int) : Prop :=
  -9223372036854775808 ≤ x ∧ x ≤ 9223372036854775807

instance (x : Int) : Decidable (isInt64 x) := by
  unfold isInt64; infer_instance

/-- Go `a + b` on `int64`. -/
def add64 (a b : Int) : Int := wrap64 (a + b)

/-- Go `a - b` on `int64`. -/
def sub64 (a b : Int) : Int := wrap64 (a - b)

/-- Go `a * b` on `int64`. -/
def mul64 (a b : Int) : Int := wrap64 (a * b)

/-! ## `strings.TrimSpace` -/

/-- Go `unicode.IsSpace`: the Latin-1 spaces and the code points of category Z. -/
def isSpace (c : Char) : Bool :=
  let n := c.toNat
  n = 0x09 || n = 0x0A || n = 0x0B || n = 0x0C || n = 0x0D || n = 0x20 ||
  n = 0x85 || n = 0xA0 || n = 0x1680 || (0x2000 ≤ n && n ≤ 0x200A) ||
  n = 0x2028 || n = 0x2029 || n = 0x202F || n = 0x205F || n = 0x3000

/-- Go `strings.TrimSpace`: leading and trailing white space removed. -/
def TrimSpace (s : String) : String :=
  ⟨((s.data.dropWhile isSpace).reverse.dropWhile isSpace).reverse⟩

/-! ## The two pattern libraries -/

/-- The ways of cutting a character list in two: every `(before, after)` with
`before ++ after` the list, the shortest `before` first. -/
def splits : List Char → List (List Char × List Char)
  | [] => [([], [])]
  | c :: cs => ([], c :: cs) :: (splits cs).map fun p => (c :: p.1, p.2)

/-- A compiled `regexp.Regexp`, given by what the library decides for its
pattern: whether the pattern matches the piece `mid` of the text
`pre ++ mid ++ post` where it stands.  Assertions such as `^`, `$` and `\b` look
at `pre` and `post`; a pattern without them decides on `mid` alone. -/
structure regexp.Regexp where
  matchesAt : List Char → List Char → List Char → Bool

/-- Go `(*Regexp).MatchString`: "reports whether the string s contains any match
of the regular expression".  Every start position and every end position after
it is tried. -/
def regexp.Regexp.MatchString (re : regexp.Regexp) (s : String) : Bool :=
  (splits s.data).any fun p => (splits p.2).any fun q => re.matchesAt p.1 q.1 q.2

/-- The compiled form of a pattern `body`, `^body`, `body$` or `^body$`, where
`body` is built from literals, alternation, concatenation and repetition: `^`
asks for nothing before the match, `$` for nothing after it. -/
def regexp.compiled (atStart : Bool) (body : RegularExpression Char) (atEnd : Bool) :
    regexp.Regexp :=
  { matchesAt := fun pre mid post =>
      (!atStart || pre.isEmpty) && body.rmatch mid && (!atEnd || post.isEmpty) }

/-- A compiled `glob.Glob`, given by what the library decides for its pattern:
whether the pattern matches a string. -/
structure glob.Glob where
  accepts : List Char → Bool

/-- The method `Glob.Match` of `gobwas/glob`: the library's verdict on `s`, which
it receives whole. -/
def glob.Glob.Match (g : glob.Glob) (s : String) : Bool :=
  g.accepts s.data

/-- The compiled form of a glob `*text` with literal `text` (compiled without
separators): the strings that end in `text`. -/
def glob.anyThenText (text : String) : glob.Glob :=
  { accepts := fun s => text.data.isSuffixOf s }

/-! ## `config.go` -/

/-- Go `PrometheusConfig`. -/
structure PrometheusConfig where
  Enabled : Bool := false

/-- Go `LogCollectionConfig`; the interval is kept in nanoseconds. -/
structure LogCollectionConfig where
  LogRenewalInterval : Int := 0
  MaxHandleableLogGap : Int := 0
  GoogleLogListURL : String := ""
  LogsURLs : List String := []

/-- Go `NotifierConfig`. -/
structure NotifierConfig where
  ShoutrrrURL : String
  deriving DecidableEq, Repr

/-- The `router.ServiceRouter` of shoutrrr: the destinations it was created for. -/
structure ServiceRouter where
  urls : List String
  deriving DecidableEq, Repr

/-- Go `patternKind`. -/
inductive patternKind where
  | pkNone
  | pkRegex
  | pkGlob
  deriving DecidableEq, Repr

/-- Go `WatcherConfig`.  The pointer `sender`, the pointer `re` and the interface
`gl` are `none` when nil. -/
structure WatcherConfig where
  Glob : String := ""
  RegexpRaw : String := ""
  Notifiers : List NotifierConfig := []
  sender : Option ServiceRouter := none
  kind : patternKind := patternKind.pkNone
  re : Option regexp.Regexp := none
  gl : Option glob.Glob := none

/-- Go `(*WatcherConfig).Match`.  Calling a nil `re` or `gl` panics in Go; the
embedding answers `false` there, a case no watcher prepared by `LoadConfig`
reaches (`kind` is set together with the compiled pattern). -/
def WatcherConfig.Match (w : WatcherConfig) (s : String) : Bool :=
  match w.kind with
  | patternKind.pkRegex =>
    match w.re with
    | some re => re.MatchString s
    | none => false
  | patternKind.pkGlob =>
    match w.gl with
    | some gl => gl.Match s
    | none => false
  | patternKind.pkNone => false

/-- Go `Config`. -/
structure Config where
  Prometheus : PrometheusConfig := {}
  LogCollection : LogCollectionConfig := {}
  Watchers : List WatcherConfig := []

/-- Go `(*Config).WatchersFor`: the loop appends every matching watcher to `out`;
a nil slice is the empty list. -/
def Config.WatchersFor (c : Config) (s : String) : List WatcherConfig × Bool :=
  if c.Watchers.length = 0 then
    ([], false)
  else
    let out := c.Watchers.foldl
      (fun out watcher => if watcher.Match s then out ++ [watcher] else out) []
    if out.length = 0 then ([], false) else (out, true)

/-- The errors of `LoadConfig`, one constructor per `fmt.Errorf`. -/
inductive LoadError where
  | parseYaml (err : String)
  | noLogSource
  | noWatchers
  | bothPatterns (i : Nat)
  | invalidRegexp (i : Nat) (raw : String) (err : String)
  | invalidWildcard (i : Nat) (raw : String) (err : String)
  | noPattern (i : Nat)
  | noNotifiers (i : Nat)
  | emptyShoutrrrURL (i j : Nat)
  | senderFailed (i : Nat) (err : String)
  deriving DecidableEq, Repr

/-- The library calls of `LoadConfig` whose results the embedding does not
compute: `regexp.Compile`, `glob.Compile` and `shoutrrr.NewSender`. -/
structure Libraries where
  regexpCompile : String → Except String regexp.Regexp
  globCompile : String → Except String glob.Glob
  NewSender : List String → Except String ServiceRouter

/-- The inner loop of `LoadConfig` over `w.Notifiers`, from index `j`: the URLs
collected, or the error for the first blank one. -/
def collectSenderURLs (i : Nat) : Nat → List NotifierConfig → Except LoadError (List String)
  | _, [] => .ok []
  | j, n :: rest =>
    if TrimSpace n.ShoutrrrURL = "" then
      .error (LoadError.emptyShoutrrrURL i j)
    else
      match collectSenderURLs i (j + 1) rest with
      | .ok urls => .ok (n.ShoutrrrURL :: urls)
      | .error e => .error e

/-- The body of the watcher loop of `LoadConfig` for `cfg.Watchers[i]`. -/
def prepareWatcher (libs : Libraries) (i : Nat) (w : WatcherConfig) :
    Except LoadError WatcherConfig :=
  let hasRegex := TrimSpace w.RegexpRaw ≠ ""
  let hasQuery := TrimSpace w.Glob ≠ ""
  let compiled : Except LoadError WatcherConfig :=
    if hasRegex ∧ hasQuery then
      .error (LoadError.bothPatterns i)
    else if hasRegex then
      match libs.regexpCompile w.RegexpRaw with
      | .error err => .error (LoadError.invalidRegexp i w.RegexpRaw err)
      | .ok re => .ok { w with kind := patternKind.pkRegex, re := some re }
    else if hasQuery then
      match libs.globCompile w.Glob with
      | .error err => .error (LoadError.invalidWildcard i w.Glob err)
      | .ok g => .ok { w with kind := patternKind.pkGlob, gl := some g }
    else
      .error (LoadError.noPattern i)
  match compiled with
  | .error e => .error e
  | .ok w1 =>
    if w1.Notifiers.length = 0 then
      .error (LoadError.noNotifiers i)
    else
      match collectSenderURLs i 0 w1.Notifiers with
      | .error e => .error e
      | .ok shoutrrrSenderURLs =>
        match libs.NewSender shoutrrrSenderURLs with
        | .error err => .error (LoadError.senderFailed i err)
        | .ok shoutrrrSender => .ok { w1 with sender := some shoutrrrSender }

/-- The watcher loop of `LoadConfig` from index `i`; the first error ends it. -/
def prepareWatchers (libs : Libraries) : Nat → List WatcherConfig →
    Except LoadError (List WatcherConfig)
  | _, [] => .ok []
  | i, w :: rest =>
    match prepareWatcher libs i w with
    | .error e => .error e
    | .ok w1 =>
      match prepareWatchers libs (i + 1) rest with
      | .error e => .error e
      | .ok ws => .ok (w1 :: ws)

/-- Go `LoadConfig`, from the outcome of `yaml.Unmarshal` on. -/
def LoadConfig (libs : Libraries) (decoded : Except String Config) :
    Except LoadError Config :=
  match decoded with
  | .error err => .error (LoadError.parseYaml err)
  | .ok cfg =>
    if TrimSpace cfg.LogCollection.GoogleLogListURL = "" ∧
        cfg.LogCollection.LogsURLs.length = 0 then
      .error LoadError.noLogSource
    else if cfg.Watchers.length = 0 then
      .error LoadError.noWatchers
    else
      match prepareWatchers libs 0 cfg.Watchers with
      | .error e => .error e
      | .ok ws => .ok { cfg with Watchers := ws }

/-! ## `logs.go` -/

/-- Go `CtLogUpdateLog`. -/
structure CtLogUpdateLog where
  OperatorName : String
  Description : String
  Url : String
  LogID : String
  deriving DecidableEq, Repr

/-- Go `CtLogUpdate`. -/
structure CtLogUpdate where
  Logs : List CtLogUpdateLog := []
  LastModified : String := ""
  deriving DecidableEq, Repr

/-! ## `main.go`: data -/

/-- The fields of `x509.Certificate` that `main.go` reads; `Issuer`, `Subject`,
`NotBefore` and `NotAfter` hold the text their `String()` methods return. -/
structure x509.Certificate where
  SerialNumber : Int
  Issuer : String
  Subject : String
  CommonName : String
  DNSNames : List String
  NotBefore : String
  NotAfter : String
  deriving DecidableEq, Repr

/-- The type `ctgo.LeafEntry`: the two byte strings of one `get-entries` item. -/
structure ctgo.LeafEntry where
  LeafInput : List UInt8
  ExtraData : List UInt8
  deriving DecidableEq, Repr

/-- Go `NotifyInstruction`. -/
structure NotifyInstruction where
  Certificate : x509.Certificate
  Watchers : List WatcherConfig
  LogDescription : String

/-- The value of `prometheus.Labels` used throughout: `log_operator` and
`log_description`. -/
abbrev Labels := String × String

/-- The collectors of `metrics.go`: counters hold their count, the gauge its last
value, the histogram its number of observations. -/
structure Metrics where
  prometheusLogCertsScanned : Labels → Nat := fun _ => 0
  prometheusLogDomainsScanned : Labels → Nat := fun _ => 0
  prometheusLogTreeSize : Labels → Option Int := fun _ => none
  prometheusLogEntryRequest : Labels → Nat := fun _ => 0
  prometheusLogIngestDuration : Labels → Nat := fun _ => 0
  prometheusLogIterationsMissed : Labels → Nat := fun _ => 0
  prometheusLogIterationsSkipped : Labels → Nat := fun _ => 0
  prometheusIterationCount : Nat := 0

/-- The method `Inc` of a counter vector at one label set. -/
def inc (f : Labels → Nat) (l : Labels) : Labels → Nat :=
  fun k => if k = l then f k + 1 else f k

/-- A `sync.Map` with string keys: `none` where no value is stored. -/
abbrev SyncMap (α : Type) := String → Option α

/-- The method `Store` of `sync.Map`. -/
def SyncMap.Store {α : Type} (m : SyncMap α) (key : String) (v : α) : SyncMap α :=
  fun k => if k = key then some v else m k

/-- The method `Delete` of `sync.Map`. -/
def SyncMap.Delete {α : Type} (m : SyncMap α) (key : String) : SyncMap α :=
  fun k => if k = key then none else m k

/-- The method `Swap` of `sync.Map`: the map after the store, with the previous
value (`none` when `loaded` is false). -/
def SyncMap.Swap {α : Type} (m : SyncMap α) (key : String) (v : α) : SyncMap α × Option α :=
  (m.Store key v, m key)

/-- The method `LoadOrStore` of `sync.Map`: the existing value and `true`, or the
given value, now stored, and `false`. -/
def SyncMap.LoadOrStore {α : Type} (m : SyncMap α) (key : String) (v : α) :
    SyncMap α × α × Bool :=
  match m key with
  | some old => (m, old, true)
  | none => (m.Store key v, v, false)

/-! ## `main.go`: the log client -/

/-- What the HTTP exchange of one `get-sth` call delivers: the error of
`http.DefaultClient.Do`, the status code, the error of `io.ReadAll`, and the
outcome of `json.Unmarshal` into the `tree_size` field. -/
structure SthExchange where
  doErr : Option String := none
  StatusCode : Int := 200
  readErr : Option String := none
  TreeSize : Except String Int

/-- Go `getSTH`, for a request that `http.NewRequest` could build. -/
def getSTH (x : SthExchange) : Except String Int :=
  match x.doErr with
  | some err => .error err
  | none =>
    if x.StatusCode > 299 then
      .error "log sth request failed"
    else
      match x.readErr with
      | some err => .error err
      | none =>
        match x.TreeSize with
        | .error err => .error err
        | .ok treeSize => .ok treeSize

/-- What the HTTP exchange of one `get-entries` call delivers: the error of
`http.DefaultClient.Do`, the error of `io.ReadAll`, the entries decoded by
`json.Unmarshal` and its error. -/
structure EntriesExchange where
  doErr : Option String := none
  readErr : Option String := none
  Entries : List ctgo.LeafEntry := []
  unmarshalErr : Option String := none

/-- Go `getEntries`: the entries and the error, as the Go function returns both. -/
def getEntries (x : EntriesExchange) : List ctgo.LeafEntry × Option String :=
  match x.doErr with
  | some err => ([], some err)
  | none =>
    match x.readErr with
    | some err => ([], some err)
    | none =>
      match x.unmarshalErr with
      | some err => (x.Entries, some err)
      | none => (x.Entries, none)

/-- The log server as one `updateLog` execution sees it: the exchange of its
`get-sth` call, and the exchange of its `k`-th `get-entries` call (counted from
0) for the requested `start` and `end`. -/
structure LogServer where
  sth : SthExchange
  entries : Nat → Int → Int → EntriesExchange

/-- The two decoding steps of `updateLog` that libraries perform:
`ctgo.RawLogEntryFromLeaf` (giving `rle.Cert.Data`) and `x509.ParseCertificate`. -/
structure Decoders where
  RawLogEntryFromLeaf : Int → ctgo.LeafEntry → Except String (List UInt8)
  ParseCertificate : List UInt8 → Except String x509.Certificate

/-! ## `main.go`: `updateLog` -/

/-- The mutable state `updateLog` works on, with a record of its effects: the
`get-entries` requests issued, as `(start, end)`, and the instructions sent on
`notifyInstructionChannel`, both oldest first. -/
structure World where
  lastTreeSizes : SyncMap Int := fun _ => none
  metrics : Metrics := {}
  requests : List (Int × Int) := []
  channel : List NotifyInstruction := []

/-- The state of the entry loop of `updateLog`.  `exhausted` is set when the
fuel of the embedding ran out while the loop condition still held. -/
structure LoopState where
  entriesHandled : Int := 0
  world : World := {}
  exhausted : Bool := false

/-- The loop over `cert.DNSNames` in `updateLog`: the scan counter is incremented
for every name, the watchers of a matching name are appended. -/
def scanDNSNames (config : Config) (prometheusLabels : Labels) :
    List String → List WatcherConfig × Metrics → List WatcherConfig × Metrics
  | [], acc => acc
  | dnsName :: rest, (watchers, m) =>
    let m1 := { m with
      prometheusLogDomainsScanned := inc m.prometheusLogDomainsScanned prometheusLabels }
    let (dnsNameWatchers, matchedAny) := config.WatchersFor dnsName
    if ¬ matchedAny then
      scanDNSNames config prometheusLabels rest (watchers, m1)
    else
      scanDNSNames config prometheusLabels rest (watchers ++ dnsNameWatchers, m1)

/-- The body of the loop over `currentEntries` in `updateLog`. -/
def handleEntry (dec : Decoders) (log : CtLogUpdateLog) (prometheusLabels : Labels)
    (config : Config) (lastTreeSize : Int) (st : LoopState) (entry : ctgo.LeafEntry) :
    LoopState :=
  let m1 := { st.world.metrics with
    prometheusLogCertsScanned := inc st.world.metrics.prometheusLogCertsScanned prometheusLabels }
  let rle := dec.RawLogEntryFromLeaf (add64 lastTreeSize st.entriesHandled) entry
  let entriesHandled := add64 st.entriesHandled 1
  match rle with
  | .error _ => { st with entriesHandled := entriesHandled, world := { st.world with metrics := m1 } }
  | .ok data =>
    match dec.ParseCertificate data with
    | .error _ =>
      { st with entriesHandled := entriesHandled, world := { st.world with metrics := m1 } }
    | .ok cert =>
      let (watchers, m2) := scanDNSNames config prometheusLabels cert.DNSNames
        ((config.WatchersFor cert.CommonName).1, m1)
      if watchers.length > 0 then
        { st with
          entriesHandled := entriesHandled
          world := { st.world with
            metrics := m2
            channel := st.world.channel ++
              [{ Certificate := cert, Watchers := watchers, LogDescription := log.Description }] } }
      else
        { st with entriesHandled := entriesHandled, world := { st.world with metrics := m2 } }

/-- The loop `for entriesHandled < gap` of `updateLog`.  One unit of fuel pays for
one `get-entries` request; `break` and a false loop condition both leave the
state as it is. -/
def entryLoop (server : LogServer) (dec : Decoders) (log : CtLogUpdateLog)
    (prometheusLabels : Labels) (config : Config) (lastTreeSize treeSize gap : Int) :
    Nat → LoopState → LoopState
  | 0, st => { st with exhausted := decide (st.entriesHandled < gap) }
  | fuel + 1, st =>
    if st.entriesHandled < gap then
      let start := add64 lastTreeSize st.entriesHandled
      let stop := sub64 treeSize 1
      let w1 : World := { st.world with
        metrics := { st.world.metrics with
          prometheusLogEntryRequest :=
            inc st.world.metrics.prometheusLogEntryRequest prometheusLabels }
        requests := st.world.requests ++ [(start, stop)] }
      let (currentEntries, err) := getEntries (server.entries st.world.requests.length start stop)
      match err with
      | some _ => { st with world := w1 }
      | none =>
        entryLoop server dec log prometheusLabels config lastTreeSize treeSize gap fuel
          (currentEntries.foldl (handleEntry dec log prometheusLabels config lastTreeSize)
            { st with world := w1 })
    else
      st

/-- What one execution of `updateLog` leaves behind: the world, and the value
returned, `none` when the fuel ran out inside the entry loop (the call has not
returned yet and `world` is the state reached so far). -/
structure UpdateResult where
  returned : Option Bool
  world : World

/-- Go `updateLog`. -/
def updateLog (server : LogServer) (dec : Decoders) (fuel : Nat) (log : CtLogUpdateLog)
    (prometheusLabels : Labels) (config : Config) (w : World) : UpdateResult :=
  match getSTH server.sth with
  | .error _ => { returned := some false, world := w }
  | .ok treeSize =>
    let (lastTreeSizes, lastTreeSizeValue) := w.lastTreeSizes.Swap log.LogID treeSize
    let w1 : World := { w with
      lastTreeSizes := lastTreeSizes
      metrics := { w.metrics with
        prometheusLogTreeSize := fun k =>
          if k = prometheusLabels then some treeSize else w.metrics.prometheusLogTreeSize k } }
    match lastTreeSizeValue with
    | none => { returned := some true, world := w1 }
    | some lastTreeSize =>
      if lastTreeSize = 0 then
        { returned := some true, world := w1 }
      else
        let gap := sub64 treeSize lastTreeSize
        if gap > config.LogCollection.MaxHandleableLogGap then
          { returned := some true
            world := { w1 with
              metrics := { w1.metrics with
                prometheusLogIterationsSkipped :=
                  inc w1.metrics.prometheusLogIterationsSkipped prometheusLabels } } }
        else if gap = 0 then
          { returned := some true, world := w1 }
        else
          let st := entryLoop server dec log prometheusLabels config lastTreeSize treeSize gap
            fuel { world := w1 }
          if st.exhausted then
            { returned := none, world := st.world }
          else
            { returned := some true
              world := { st.world with
                metrics := { st.world.metrics with
                  prometheusLogIngestDuration :=
                    inc st.world.metrics.prometheusLogIngestDuration prometheusLabels } } }

/-- Successive executions of `updateLog` on one log, each with the server
behaviour of its own time, threading the world; the results oldest first. -/
def runUpdates (dec : Decoders) (fuel : Nat) (log : CtLogUpdateLog)
    (prometheusLabels : Labels) (config : Config) :
    List LogServer → World → List UpdateResult
  | [], _ => []
  | server :: rest, w =>
    let r := updateLog server dec fuel log prometheusLabels config w
    r :: runUpdates dec fuel log prometheusLabels config rest r.world

/-! ## `main.go`: the dispatcher goroutine -/

/-- The method `Replace` of `strings.NewReplacer(".", "[.]")`. -/
def defang (s : String) : String :=
  s.replace "." "[.]"

/-- The verb `%X` applied to a `*big.Int`: upper-case hexadecimal with a sign. -/
def formatHex (n : Int) : String :=
  let digits := String.mk ((Nat.toDigits 16 n.natAbs).map Char.toUpper)
  if n < 0 then "-" ++ digits else digits

/-- The method `String` of `*big.Int`: the decimal text. -/
def serialString (n : Int) : String :=
  toString n

/-- The `title` of every notification. -/
def notificationTitle : String :=
  "Certalert: Found matching certificate"

/-- The `fmt.Sprintf` that builds the notification `message`. -/
def notificationMessage (entry : NotifyInstruction) : String :=
  "Issuer: " ++ entry.Certificate.Issuer ++
  "\nSubject: " ++ defang entry.Certificate.Subject ++
  "\nDNS Names: " ++ defang (", ".intercalate entry.Certificate.DNSNames) ++
  "\nLog: " ++ entry.LogDescription ++
  "\nValid after: " ++ entry.Certificate.NotBefore ++
  "\nValid until: " ++ entry.Certificate.NotAfter ++
  "\nSerial: " ++ formatHex entry.Certificate.SerialNumber

/-- One call of `watcher.Notify(title, message)`. -/
structure NotifyCall where
  watcher : WatcherConfig
  title : String
  message : String

/-- The outcome of `w.sender.Send`, which the embedding does not compute: for a
watcher, a message and a title, one optional error per destination. -/
abbrev SendOutcome := WatcherConfig → String → String → List (Option String)

/-- Go `(*WatcherConfig).Notify`. -/
def WatcherConfig.Notify (send : SendOutcome) (w : WatcherConfig) (title message : String) :
    List (Option String) :=
  send w message title

/-- The state of the dispatcher goroutine: the keys of
`coveredCertificateSerials`, the `Notify` calls made and the lines printed for
failed deliveries, both oldest first. -/
structure DispatcherState where
  coveredCertificateSerials : List String := []
  calls : List NotifyCall := []
  printed : List String := []

/-- The loop over `entry.Watchers` in the dispatcher: each watcher is notified,
each non-nil error is printed. -/
def notifyWatchers (send : SendOutcome) (title message : String) :
    List WatcherConfig → DispatcherState → DispatcherState
  | [], st => st
  | watcher :: rest, st =>
    let errors := watcher.Notify send title message
    notifyWatchers send title message rest
      { st with
        calls := st.calls ++ [{ watcher := watcher, title := title, message := message }]
        printed := st.printed ++
          errors.filterMap (fun e => e.map (fun err => "failed to notify watcher " ++ err)) }

/-- The `case entry := <-notifyInstructionChannel` of the dispatcher: `LoadOrStore`
on the serial, `continue` for a duplicate, otherwise the notifications. -/
def dispatch (send : SendOutcome) (st : DispatcherState) (entry : NotifyInstruction) :
    DispatcherState :=
  let certSerial := serialString entry.Certificate.SerialNumber
  let isDuplicate := st.coveredCertificateSerials.contains certSerial
  if isDuplicate then
    st
  else
    notifyWatchers send notificationTitle (notificationMessage entry) entry.Watchers
      { st with coveredCertificateSerials := st.coveredCertificateSerials ++ [certSerial] }

/-- The dispatcher goroutine on the instructions it receives, in order. -/
def dispatcher (send : SendOutcome) (entries : List NotifyInstruction) (st : DispatcherState) :
    DispatcherState :=
  entries.foldl (dispatch send) st

/-- The `Notify` calls the dispatcher makes for each received instruction, in
order of reception, from the state `st`. -/
def callsPerEntry (send : SendOutcome) : List NotifyInstruction → DispatcherState →
    List (List NotifyCall)
  | [], _ => []
  | entry :: rest, st =>
    let st1 := dispatch send st entry
    st1.calls.drop st.calls.length :: callsPerEntry send rest st1

/-! ## `main.go`: the ingestion loop -/

/-- Where a worker goroutine stands: inside `updateLog`, or inside the
`time.Sleep` of the failure branch, with the duration in nanoseconds. -/
inductive WorkerPhase where
  | updating
  | sleeping (nanoseconds : Int)
  deriving DecidableEq, Repr

/-- A worker goroutine launched by the tick loop: the `log` it captured, whose
`LogID` names the mutex it unlocks at its end. -/
structure Worker where
  log : CtLogUpdateLog
  phase : WorkerPhase
  deriving DecidableEq, Repr

/-- The state of the loop of `main` and of the goroutines it started:
`logUpdate`, `lockMap` (for each known `LogID`, whether its mutex is locked),
`failureStreak`, the live worker goroutines in launch order, and the metrics. -/
structure LoopWorld where
  logUpdate : CtLogUpdate := {}
  lockMap : SyncMap Bool := fun _ => none
  failureStreak : SyncMap Int := fun _ => none
  workers : List Worker := []
  metrics : Metrics := {}

/-- Go `time.Minute`, in nanoseconds. -/
def Minute : Int := 60000000000

/-- The slice `logsToUpdate` that a tick builds: the cached bundle when a list URL
is configured, then one log per configured URL. -/
def logsToUpdate (config : Config) (logUpdate : CtLogUpdate) : List CtLogUpdateLog :=
  (if config.LogCollection.GoogleLogListURL ≠ "" then logUpdate.Logs else []) ++
    config.LogCollection.LogsURLs.map fun customLogUrl =>
      { OperatorName := "unknown"
        Description := customLogUrl
        Url := customLogUrl
        LogID := customLogUrl }

/-- The body of `for _, log := range logUpdate.Logs`: the mutex of the log is
looked up or created, `TryLock` is attempted, and either the missed counter is
incremented or a worker goroutine is started. -/
def dispatchLog (st : LoopWorld) (log : CtLogUpdateLog) : LoopWorld :=
  let lockMap :=
    match st.lockMap log.LogID with
    | some _ => st.lockMap
    | none => st.lockMap.Store log.LogID false
  let canLock := decide (lockMap log.LogID = some false)
  let prometheusLabels : Labels := (log.OperatorName, log.Description)
  if ¬ canLock then
    { st with
      lockMap := lockMap
      metrics := { st.metrics with
        prometheusLogIterationsMissed :=
          inc st.metrics.prometheusLogIterationsMissed prometheusLabels } }
  else
    { st with
      lockMap := lockMap.Store log.LogID true
      workers := st.workers ++ [{ log := log, phase := WorkerPhase.updating }] }

/-- One tick of the loop of `main`, after the timer fired.  `refresh` is the
outcome of `getGoogleCTLogs` when the five minutes have passed, `none` when the
refresh is not due. -/
def tick (config : Config) (refresh : Option (Except String CtLogUpdate)) (st : LoopWorld) :
    LoopWorld :=
  let logUpdate :=
    if config.LogCollection.GoogleLogListURL ≠ "" then
      match refresh with
      | some (.ok newLogUpdate) => newLogUpdate
      | _ => st.logUpdate
    else
      st.logUpdate
  let _logsToUpdate := logsToUpdate config logUpdate
  let st1 := logUpdate.Logs.foldl dispatchLog { st with logUpdate := logUpdate }
  { st1 with
    metrics := { st1.metrics with
      prometheusIterationCount := st1.metrics.prometheusIterationCount + 1 } }

/-- The failure branch of a worker up to its `time.Sleep`: the new
`failureStreak` map and the sleep in nanoseconds. -/
def failureBackoff (failureStreak : SyncMap Int) (logID : String) : SyncMap Int × Int :=
  let (m1, value, loaded) := failureStreak.LoadOrStore logID 0
  let m2 := if loaded then m1.Store logID (add64 value 1) else m1
  let waitingCount := add64 (mul64 value 5) 1
  (m2, mul64 waitingCount Minute)

/-- The worker at position `i` of `workers` leaves `updateLog` with `wasOk`: on
success the streak is deleted, the mutex unlocked and the goroutine ends; on
failure the streak is updated and the goroutine sleeps. -/
def workerReturns (st : LoopWorld) (i : Nat) (wasOk : Bool) : LoopWorld :=
  match st.workers.get? i with
  | none => st
  | some worker =>
    match worker.phase with
    | WorkerPhase.sleeping _ => st
    | WorkerPhase.updating =>
      if wasOk then
        { st with
          failureStreak := st.failureStreak.Delete worker.log.LogID
          lockMap := st.lockMap.Store worker.log.LogID false
          workers := st.workers.eraseIdx i }
      else
        let (failureStreak, nanoseconds) := failureBackoff st.failureStreak worker.log.LogID
        { st with
          failureStreak := failureStreak
          workers := st.workers.set i { worker with phase := WorkerPhase.sleeping nanoseconds } }

/-- The worker at position `i` of `workers` wakes from its sleep: the mutex is
unlocked and the goroutine ends. -/
def workerWakes (st : LoopWorld) (i : Nat) : LoopWorld :=
  match st.workers.get? i with
  | none => st
  | some worker =>
    match worker.phase with
    | WorkerPhase.updating => st
    | WorkerPhase.sleeping _ =>
      { st with
        lockMap := st.lockMap.Store worker.log.LogID false
        workers := st.workers.eraseIdx i }

/-- The steps of the scheduler: a whole tick, the tick loop handling one log (so
that workers may finish while a tick is under way), a worker leaving
`updateLog`, a sleeping worker waking. -/
inductive SchedulerStep : LoopWorld → LoopWorld → Prop where
  | ticks (st : LoopWorld) (config : Config) (refresh : Option (Except String CtLogUpdate)) :
      SchedulerStep st (tick config refresh st)
  | dispatch (st : LoopWorld) (log : CtLogUpdateLog) :
      SchedulerStep st (dispatchLog st log)
  | returns (st : LoopWorld) (i : Nat) (wasOk : Bool) :
      SchedulerStep st (workerReturns st i wasOk)
  | wakes (st : LoopWorld) (i : Nat) :
      SchedulerStep st (workerWakes st i)

/-- The states the scheduler can reach from the start of `main`. -/
inductive Reachable : LoopWorld → Prop where
  | start : Reachable {}
  | step {st st1 : LoopWorld} : Reachable st → SchedulerStep st st1 → Reachable st1

/-- The number of live workers whose log has the given `LogID`. -/
def inFlight (st : LoopWorld) (logID : String) : Nat :=
  (st.workers.filter fun w => w.log.LogID = logID).length

/-- The streak map and the sleeps, oldest first, after `n` consecutive failed
updates of the log `logID`. -/
def failures (logID : String) : Nat → SyncMap Int → SyncMap Int × List Int
  | 0, m => (m, [])
  | n + 1, m =>
    let (m1, sleeps) := failures logID n m
    let (m2, d) := failureBackoff m1 logID
    (m2, sleeps ++ [d])

/-! ## Reference semantics of the patterns -/

/-- The whole string `s` matches the watcher's compiled pattern: for a regex, the
pattern matches the piece that is all of `s`, with nothing before or after; for
a glob, the library's verdict on `s`. -/
def WatcherConfig.MatchesWhole (w : WatcherConfig) (s : String) : Prop :=
  match w.kind with
  | patternKind.pkRegex => ∃ re, w.re = some re ∧ re.matchesAt [] s.data [] = true
  | patternKind.pkGlob => ∃ g, w.gl = some g ∧ g.accepts s.data = true
  | patternKind.pkNone => False

/-! ## Sample values -/

/-- A watcher as `LoadConfig` prepares it for `regexp: a`. -/
def sampleRegexWatcher : WatcherConfig :=
  { RegexpRaw := "a"
    Notifiers := [{ ShoutrrrURL := "logger://" }]
    sender := some { urls := ["logger://"] }
    kind := patternKind.pkRegex
    re := some (regexp.compiled false (RegularExpression.char 'a') false) }

/-- A watcher as `LoadConfig` prepares it for `regexp: ^a$`. -/
def sampleAnchoredWatcher : WatcherConfig :=
  { RegexpRaw := "^a$"
    Notifiers := [{ ShoutrrrURL := "logger://" }]
    sender := some { urls := ["logger://"] }
    kind := patternKind.pkRegex
    re := some (regexp.compiled true (RegularExpression.char 'a') true) }

/-- A watcher as `LoadConfig` prepares it for `glob: "*.io"`. -/
def sampleGlobWatcher : WatcherConfig :=
  { Glob := "*.io"
    Notifiers := [{ ShoutrrrURL := "logger://" }]
    sender := some { urls := ["logger://"] }
    kind := patternKind.pkGlob
    gl := some (glob.anyThenText ".io") }

/-- A statically configured log, as a tick would describe it. -/
def sampleLog : CtLogUpdateLog :=
  { OperatorName := "unknown"
    Description := "https://ct.example/log/"
    Url := "https://ct.example/log/"
    LogID := "https://ct.example/log/" }

/-- The labels of `sampleLog`. -/
def sampleLabels : Labels :=
  ("unknown", "https://ct.example/log/")

/-- Decoders that refuse every leaf. -/
def sampleDecoders : Decoders :=
  { RawLogEntryFromLeaf := fun _ _ => .error "malformed leaf"
    ParseCertificate := fun _ => .error "malformed certificate" }

/-- A server whose `get-sth` answers `tree_size = n` and whose `get-entries`
answers with an empty list. -/
def serverWithSize (n : Int) : LogServer :=
  { sth := { TreeSize := .ok n }
    entries := fun _ _ _ => {} }

/-- A server whose `get-sth` answers with status 500. -/
def serverDown : LogServer :=
  { sth := { StatusCode := 500, TreeSize := .ok 0 }
    entries := fun _ _ _ => {} }

/-- A loaded configuration with `maxHandleableLogGap: 1000`, one static log and
one glob watcher. -/
def sampleConfig : Config :=
  { LogCollection := { MaxHandleableLogGap := 1000, LogsURLs := ["https://ct.example/log/"] }
    Watchers := [sampleGlobWatcher] }

/-- A world in which `sampleLog` was last seen with tree size 100. -/
def worldAt100 : World :=
  { lastTreeSizes := fun k => if k = "https://ct.example/log/" then some 100 else none }

/-- The `LogID`s of the live workers, in launch order. -/
def workerIDs (st : LoopWorld) : List String :=
  st.workers.map fun w => w.log.LogID

/-- The invariant of the scheduler: no two live workers share a `LogID`, and a
mutex is locked exactly when a live worker holds it. -/
def LockInvariant (st : LoopWorld) : Prop :=
  (workerIDs st).Nodup ∧ ∀ k : String, st.lockMap k = some true ↔ k ∈ workerIDs st

/-- The scheduler after `sampleLog` was dispatched on two ticks in a row, its
worker still running. -/
def sampleBusy : LoopWorld :=
  dispatchLog (dispatchLog {} sampleLog) sampleLog

/-- Library behaviour for the samples: the sample patterns compile, every other
pattern is refused, and a sender is created for the destination `logger://`,
the logging service of shoutrrr, and for no other. -/
def sampleLibraries : Libraries :=
  { regexpCompile := fun raw =>
      if raw = "a" then .ok (regexp.compiled false (RegularExpression.char 'a') false)
      else if raw = "^a$" then .ok (regexp.compiled true (RegularExpression.char 'a') true)
      else .error "unsupported"
    globCompile := fun raw =>
      if raw = "*.io" then .ok (glob.anyThenText ".io") else .error "unsupported"
    NewSender := fun urls =>
      if urls.all (fun u => u == "logger://") then .ok { urls := urls }
      else .error "unknown service" }

/-- The configuration `sampleConfig` as `yaml.Unmarshal` delivers it: only
`logsURLs` as log source, one watcher with `glob: "*.io"`. -/
def sampleDecoded : Config :=
  { LogCollection := { MaxHandleableLogGap := 1000, LogsURLs := ["https://ct.example/log/"] }
    Watchers := [{ Glob := "*.io", Notifiers := [{ ShoutrrrURL := "logger://" }] }] }

/-- A decoded configuration whose only watcher gives both `glob` and `regexp`. -/
def sampleBothPatterns : Config :=
  { LogCollection := { MaxHandleableLogGap := 1000, LogsURLs := ["https://ct.example/log/"] }
    Watchers :=
      [{ Glob := "*.io"
         RegexpRaw := "a"
         Notifiers := [{ ShoutrrrURL := "logger://" }] }] }

/-! ## Reference behaviour of the entry loop -/

/-- The watcher list the specification gives for a certificate:
`WatchersFor(cn) ++ WatchersFor(d1) ++ ... ++ WatchersFor(dn)`. -/
def specWatchers (config : Config) (cert : x509.Certificate) : List WatcherConfig :=
  ((cert.CommonName :: cert.DNSNames).map fun name => (config.WatchersFor name).1).flatten

/-- The match event the specification gives for the leaf `entry` decoded at the
absolute index `index`: none when the leaf or the certificate is malformed or no
watcher matches, otherwise the certificate with its watcher list and the log's
description. -/
def specEvent (dec : Decoders) (config : Config) (log : CtLogUpdateLog) (index : Int)
    (entry : ctgo.LeafEntry) : Option NotifyInstruction :=
  match dec.RawLogEntryFromLeaf index entry with
  | .error _ => none
  | .ok data =>
    match dec.ParseCertificate data with
    | .error _ => none
    | .ok cert =>
      if (specWatchers config cert).isEmpty then none
      else some
        { Certificate := cert
          Watchers := specWatchers config cert
          LogDescription := log.Description }

/-- A certificate with common name `a.io` and the SAN DNS names `a.io`, `b.com`
and `c.io`. -/
def sampleCert : x509.Certificate :=
  { SerialNumber := 4096
    Issuer := "CN=Sample CA"
    Subject := "CN=a.io"
    CommonName := "a.io"
    DNSNames := ["a.io", "b.com", "c.io"]
    NotBefore := "2024-01-01 00:00:00 +0000 UTC"
    NotAfter := "2024-04-01 00:00:00 +0000 UTC" }

/-- Decoders that read every leaf as `sampleCert`. -/
def sampleCertDecoders : Decoders :=
  { RawLogEntryFromLeaf := fun _ e => .ok e.LeafInput
    ParseCertificate := fun _ => .ok sampleCert }

/-- A leaf entry. -/
def sampleEntry : ctgo.LeafEntry :=
  { LeafInput := [0, 0]
    ExtraData := [] }

/-- The entries of a response paired with their absolute indices, counting up
from `index`. -/
def indexedFrom (index : Int) : List ctgo.LeafEntry → List (Int × ctgo.LeafEntry)
  | [] => []
  | entry :: rest => (index, entry) :: indexedFrom (index + 1) rest

/-- The `get-entries` exchanges the specification describes for one update, with
`handled` entries processed so far and `k` requests issued so far: while
`handled` is below the gap `treeSize - prev`, the request is
`get-entries(prev + handled, treeSize - 1)` and `handled` advances by the length
of the response.  Each exchange is the request `(start, end)` with the entries
returned; `fuel` bounds the number of exchanges listed. -/
def specExchanges (server : LogServer) (prev treeSize : Int) :
    Nat → Nat → Int → List ((Int × Int) × List ctgo.LeafEntry)
  | 0, _, _ => []
  | fuel + 1, k, handled =>
    if handled < treeSize - prev then
      let entries := (getEntries (server.entries k (prev + handled) (treeSize - 1))).1
      ((prev + handled, treeSize - 1), entries) ::
        specExchanges server prev treeSize fuel (k + 1) (handled + entries.length)
    else
      []

/-- A server whose `get-sth` answers `tree_size = n` and whose `get-entries`
answers with `sampleEntry` repeated, two at a time and never more than were
requested. -/
def batchServer (n : Int) : LogServer :=
  { sth := { TreeSize := .ok n }
    entries := fun _ start stop =>
      { Entries := List.replicate (min 2 (stop - start + 1)).toNat sampleEntry } }

/-! # Theorems -/

/-! ## Patterns -/

theorem mem_splits (l : List Char) :
    ∀ p : List Char × List Char, p ∈ splits l ↔ p.1 ++ p.2 = l := by
  induction l with
  | nil =>
    rintro ⟨a, b⟩
    simp [splits]
  | cons c cs ih =>
    rintro ⟨a, b⟩
    simp only [splits, List.mem_cons, List.mem_map, Prod.mk.injEq]
    constructor
    · rintro (⟨rfl, rfl⟩ | ⟨q, hq, rfl, rfl⟩)
      · rfl
      · have := (ih q).1 hq
        simp [this]
    · intro h
      cases a with
      | nil => exact Or.inl ⟨rfl, h⟩
      | cons x xs =>
        simp only [List.cons_append, List.cons.injEq] at h
        obtain ⟨rfl, h2⟩ := h
        exact Or.inr ⟨(xs, b), (ih (xs, b)).2 h2, rfl, rfl⟩

theorem regexp.MatchString_iff (re : regexp.Regexp) (s : String) :
    re.MatchString s = true ↔
      ∃ pre mid post, s.data = pre ++ mid ++ post ∧ re.matchesAt pre mid post = true := by
  unfold regexp.Regexp.MatchString
  simp only [List.any_eq_true]
  constructor
  · rintro ⟨p, hp, q, hq, hm⟩
    have h1 := (mem_splits s.data p).1 hp
    have h2 := (mem_splits p.2 q).1 hq
    exact ⟨p.1, q.1, q.2, by rw [← h1, ← h2, List.append_assoc], hm⟩
  · rintro ⟨pre, mid, post, hs, hm⟩
    exact ⟨(pre, mid ++ post), (mem_splits s.data _).2 (by rw [hs, List.append_assoc]),
      (mid, post), (mem_splits _ _).2 rfl, hm⟩

theorem WatcherConfig.match_glob (w : WatcherConfig) (g : glob.Glob) (s : String)
    (hk : w.kind = patternKind.pkGlob) (hg : w.gl = some g) :
    w.Match s = g.accepts s.data := by
  unfold WatcherConfig.Match
  rw [hk, hg]
  rfl

theorem WatcherConfig.match_regex (w : WatcherConfig) (re : regexp.Regexp) (s : String)
    (hk : w.kind = patternKind.pkRegex) (hr : w.re = some re) :
    w.Match s = true ↔
      ∃ pre mid post, s.data = pre ++ mid ++ post ∧ re.matchesAt pre mid post = true := by
  unfold WatcherConfig.Match
  rw [hk, hr]
  exact regexp.MatchString_iff re s

/-- C1, as stated, fails: the watcher prepared for `regexp: a` has kind regex and
matches the string "ba", although the pattern matches only the proper substring
"a" and not the whole string. -/
theorem C1_regex_matches_proper_substring :
    sampleRegexWatcher.kind = patternKind.pkRegex ∧
    sampleRegexWatcher.Match "ba" = true ∧
    ¬ sampleRegexWatcher.MatchesWhole "ba" := by
  refine ⟨rfl, by decide, ?_⟩
  rintro ⟨re, hre, hm⟩
  have h : re = regexp.compiled false (RegularExpression.char 'a') false :=
    (Option.some.inj ((rfl : sampleRegexWatcher.re = some _).symm.trans hre)).symm
  subst h
  revert hm
  decide

/-- C1, amended.  A glob watcher matches `s` exactly when its glob matches the
whole of `s`: `Match` hands the entire string to the compiled glob, and for a
glob `*text` with literal `text` these are the strings ending in `text`.  A regex
watcher matches `s` exactly when its pattern matches some contiguous piece `mid`
of `s = pre ++ mid ++ post` where it stands, whatever surrounds it (the search
is unanchored).  Hence for a pattern without assertions it is enough that a
substring, possibly a proper one, is in the language of the pattern, while a
pattern written `^body$` matches `s` exactly when the whole of `s` is in the
language of `body`.  A watcher of kind none matches nothing. -/
theorem C1_match_semantics (w : WatcherConfig) (s : String) :
    (∀ g, w.kind = patternKind.pkGlob → w.gl = some g →
      (w.Match s = true ↔ w.MatchesWhole s)) ∧
    (∀ text : String, w.kind = patternKind.pkGlob → w.gl = some (glob.anyThenText text) →
      (w.Match s = true ↔ ∃ pre : String, s = pre ++ text)) ∧
    (∀ re, w.kind = patternKind.pkRegex → w.re = some re →
      (w.Match s = true ↔
        ∃ pre mid post : String, s = pre ++ mid ++ post ∧
          re.matchesAt pre.data mid.data post.data = true)) ∧
    (∀ body, w.kind = patternKind.pkRegex →
      w.re = some (regexp.compiled false body false) →
      (w.Match s = true ↔
        ∃ pre mid post : String, s = pre ++ mid ++ post ∧ mid.data ∈ body.matches')) ∧
    (∀ body, w.kind = patternKind.pkRegex →
      w.re = some (regexp.compiled true body true) →
      (w.Match s = true ↔ s.data ∈ body.matches') ∧
      (w.Match s = true ↔ w.MatchesWhole s)) ∧
    (w.kind = patternKind.pkNone → w.Match s = false) := by
  have hgen : ∀ re, w.kind = patternKind.pkRegex → w.re = some re →
      (w.Match s = true ↔
        ∃ pre mid post : String, s = pre ++ mid ++ post ∧
          re.matchesAt pre.data mid.data post.data = true) := by
    intro re hk hr
    rw [WatcherConfig.match_regex w re s hk hr]
    constructor
    · rintro ⟨pre, mid, post, hs, hm⟩
      refine ⟨⟨pre⟩, ⟨mid⟩, ⟨post⟩, ?_, hm⟩
      apply String.ext
      simp [hs]
    · rintro ⟨pre, mid, post, hs, hm⟩
      exact ⟨pre.data, mid.data, post.data, by simp [hs], hm⟩
  refine ⟨?_, ?_, hgen, ?_, ?_, ?_⟩
  · intro g hk hg
    rw [WatcherConfig.match_glob w g s hk hg]
    unfold WatcherConfig.MatchesWhole
    rw [hk]
    constructor
    · intro h; exact ⟨g, hg, h⟩
    · rintro ⟨g1, hg1, h⟩
      have : g1 = g := Option.some.inj (hg1.symm.trans hg)
      subst this; exact h
  · intro text hk hg
    rw [WatcherConfig.match_glob w _ s hk hg]
    simp only [glob.anyThenText, List.isSuffixOf_iff_suffix]
    constructor
    · rintro ⟨pre, hpre⟩
      exact ⟨⟨pre⟩, String.ext (by simp [hpre])⟩
    · rintro ⟨pre, hpre⟩
      exact ⟨pre.data, by simp [hpre]⟩
  · intro body hk hr
    rw [hgen _ hk hr]
    simp only [regexp.compiled, Bool.not_false, Bool.true_or, Bool.true_and, Bool.and_true,
      RegularExpression.rmatch_iff_matches']
  · intro body hk hr
    have hwhole : w.Match s = true ↔ s.data ∈ body.matches' := by
      rw [WatcherConfig.match_regex w _ s hk hr]
      simp only [regexp.compiled, Bool.not_true, Bool.false_or, Bool.and_eq_true,
        List.isEmpty_iff, RegularExpression.rmatch_iff_matches']
      constructor
      · rintro ⟨pre, mid, post, hs, ⟨hpre, hmem⟩, hpost⟩
        subst hpre; subst hpost
        simpa [hs] using hmem
      · intro hmem
        exact ⟨[], s.data, [], by simp, ⟨rfl, hmem⟩, rfl⟩
    refine ⟨hwhole, ?_⟩
    rw [hwhole]
    unfold WatcherConfig.MatchesWhole
    rw [hk]
    constructor
    · intro hmem
      refine ⟨_, hr, ?_⟩
      simp only [regexp.compiled, Bool.not_true, Bool.false_or, List.isEmpty_nil, Bool.true_and,
        Bool.and_true, RegularExpression.rmatch_iff_matches']
      exact hmem
    · rintro ⟨re1, hr1, hm⟩
      have : re1 = regexp.compiled true body true := Option.some.inj (hr1.symm.trans hr)
      subst this
      simp only [regexp.compiled, Bool.not_true, Bool.false_or, List.isEmpty_nil, Bool.true_and,
        Bool.and_true, RegularExpression.rmatch_iff_matches'] at hm
      exact hm
  · intro hk
    unfold WatcherConfig.Match
    rw [hk]

/-- C1, amended, at the sample watchers: the glob `*.io` on "a.io" and on
"a.io.x" (not matched: the string does not end in ".io"), the regex `a` on "ba"
(matched through its piece "a"), and the regex `^a$` on "ba" (not matched, the
whole string not being in the language of `a`). -/
theorem C1_match_semantics_witness :
    (sampleGlobWatcher.Match "a.io" = true ↔ sampleGlobWatcher.MatchesWhole "a.io") ∧
    (sampleGlobWatcher.Match "a.io.x" = true ↔ ∃ pre : String, "a.io.x" = pre ++ ".io") ∧
    sampleGlobWatcher.Match "a.io.x" = false ∧
    (sampleRegexWatcher.Match "ba" = true ↔
      ∃ pre mid post : String, "ba" = pre ++ mid ++ post ∧
        mid.data ∈ (RegularExpression.char 'a').matches') ∧
    (sampleAnchoredWatcher.Match "ba" = true ↔
      "ba".data ∈ (RegularExpression.char 'a').matches') ∧
    sampleAnchoredWatcher.Match "ba" = false ∧
    sampleAnchoredWatcher.Match "a" = true :=
  ⟨(C1_match_semantics sampleGlobWatcher "a.io").1 _ rfl rfl,
   (C1_match_semantics sampleGlobWatcher "a.io.x").2.1 ".io" rfl rfl,
   by decide,
   (C1_match_semantics sampleRegexWatcher "ba").2.2.2.1 _ rfl rfl,
   ((C1_match_semantics sampleAnchoredWatcher "ba").2.2.2.2.1 _ rfl rfl).1,
   by decide, by decide⟩

/-! ## `WatchersFor` -/

theorem foldl_append_matching (name : String) (ws : List WatcherConfig) :
    ∀ acc : List WatcherConfig,
      ws.foldl (fun out watcher => if watcher.Match name then out ++ [watcher] else out) acc =
        acc ++ ws.filter (fun w => w.Match name) := by
  induction ws with
  | nil => intro acc; simp
  | cons w ws ih =>
    intro acc
    rw [List.foldl_cons, ih]
    by_cases h : w.Match name = true
    · simp [h]
    · simp [h]

theorem Config.WatchersFor_fst (c : Config) (name : String) :
    (c.WatchersFor name).1 = c.Watchers.filter (fun w => w.Match name) := by
  unfold Config.WatchersFor
  by_cases h0 : c.Watchers.length = 0
  · have hnil : c.Watchers = [] := List.length_eq_zero.1 h0
    simp [hnil]
  · rw [if_neg h0, foldl_append_matching]
    simp only [List.nil_append]
    by_cases h1 : (c.Watchers.filter (fun w => w.Match name)).length = 0
    · rw [if_pos h1]
      exact (List.length_eq_zero.1 h1).symm
    · rw [if_neg h1]

theorem Config.WatchersFor_snd (c : Config) (name : String) :
    (c.WatchersFor name).2 = true ↔ (c.WatchersFor name).1 ≠ [] := by
  unfold Config.WatchersFor
  by_cases h0 : c.Watchers.length = 0
  · simp [h0]
  · rw [if_neg h0]
    by_cases h1 : (c.Watchers.foldl
        (fun out watcher => if watcher.Match name then out ++ [watcher] else out) []).length = 0
    · simp [h1]
    · simp only [if_neg h1]
      constructor
      · intro _ hnil
        exact h1 (by rw [hnil]; rfl)
      · intro _; trivial

/-- C2: `WatchersFor(name)` returns the watchers of the config that match `name`,
as the filtered list (a sub-list of `Watchers` in config order, each watcher as
often as it stands in the config); the boolean is true exactly when the list is
non-empty, and the list is empty exactly when no watcher matches. -/
theorem C2_WatchersFor_is_filter (c : Config) (name : String) :
    (c.WatchersFor name).1 = c.Watchers.filter (fun w => w.Match name) ∧
    List.Sublist (c.WatchersFor name).1 c.Watchers ∧
    (∀ w, w ∈ (c.WatchersFor name).1 ↔ w ∈ c.Watchers ∧ w.Match name = true) ∧
    ((c.WatchersFor name).2 = true ↔ (c.WatchersFor name).1 ≠ []) ∧
    ((c.WatchersFor name).1 = [] ↔ ∀ w ∈ c.Watchers, w.Match name = false) := by
  refine ⟨Config.WatchersFor_fst c name, ?_, ?_, Config.WatchersFor_snd c name, ?_⟩
  · rw [Config.WatchersFor_fst]
    exact List.filter_sublist _
  · intro w
    rw [Config.WatchersFor_fst, List.mem_filter]
  · rw [Config.WatchersFor_fst, List.filter_eq_nil_iff]
    simp

/-! ## The dispatcher -/

theorem notifyWatchers_calls (send : SendOutcome) (title message : String)
    (ws : List WatcherConfig) :
    ∀ st : DispatcherState,
      (notifyWatchers send title message ws st).calls =
        st.calls ++ ws.map (fun w => { watcher := w, title := title, message := message }) ∧
      (notifyWatchers send title message ws st).coveredCertificateSerials =
        st.coveredCertificateSerials := by
  induction ws with
  | nil => intro st; simp [notifyWatchers]
  | cons w ws ih =>
    intro st
    simp only [notifyWatchers]
    obtain ⟨h1, h2⟩ := ih
      { st with
        calls := st.calls ++ [{ watcher := w, title := title, message := message }]
        printed := st.printed ++
          (w.Notify send title message).filterMap
            (fun e => e.map (fun err => "failed to notify watcher " ++ err)) }
    constructor
    · rw [h1]; simp
    · rw [h2]

theorem dispatch_calls (send : SendOutcome) (st : DispatcherState) (e : NotifyInstruction) :
    (dispatch send st e).calls =
      st.calls ++
        (if serialString e.Certificate.SerialNumber ∈ st.coveredCertificateSerials then []
         else e.Watchers.map (fun w =>
          { watcher := w, title := notificationTitle, message := notificationMessage e })) := by
  have hc : st.coveredCertificateSerials.contains (serialString e.Certificate.SerialNumber) =
      true ↔ serialString e.Certificate.SerialNumber ∈ st.coveredCertificateSerials := by simp
  unfold dispatch
  by_cases h : serialString e.Certificate.SerialNumber ∈ st.coveredCertificateSerials
  · simp [h]
  · simp only [hc, h, if_false]
    rw [(notifyWatchers_calls send _ _ e.Watchers _).1]

theorem dispatch_covered (send : SendOutcome) (st : DispatcherState) (e : NotifyInstruction)
    (k : String) :
    k ∈ (dispatch send st e).coveredCertificateSerials ↔
      k ∈ st.coveredCertificateSerials ∨ k = serialString e.Certificate.SerialNumber := by
  have hc : st.coveredCertificateSerials.contains (serialString e.Certificate.SerialNumber) =
      true ↔ serialString e.Certificate.SerialNumber ∈ st.coveredCertificateSerials := by simp
  unfold dispatch
  by_cases h : serialString e.Certificate.SerialNumber ∈ st.coveredCertificateSerials
  · simp only [hc, h, if_true]
    constructor
    · intro hk; exact Or.inl hk
    · rintro (hk | hk)
      · exact hk
      · rw [hk]; exact h
  · simp only [hc, h, if_false]
    rw [(notifyWatchers_calls send _ _ e.Watchers _).2]
    simp

theorem dispatcher_covered (send : SendOutcome) (es : List NotifyInstruction) (k : String) :
    ∀ st : DispatcherState,
      k ∈ (dispatcher send es st).coveredCertificateSerials ↔
        k ∈ st.coveredCertificateSerials ∨
          k ∈ es.map (fun e => serialString e.Certificate.SerialNumber) := by
  induction es with
  | nil => intro st; simp [dispatcher]
  | cons e es ih =>
    intro st
    have := ih (dispatch send st e)
    simp only [dispatcher, List.foldl_cons] at this ⊢
    rw [this, dispatch_covered]
    simp only [List.map_cons, List.mem_cons]
    tauto

theorem callsPerEntry_head (send : SendOutcome) (e : NotifyInstruction)
    (post : List NotifyInstruction) (st : DispatcherState) :
    (callsPerEntry send (e :: post) st).get? 0 =
      some (if serialString e.Certificate.SerialNumber ∈ st.coveredCertificateSerials then []
        else e.Watchers.map (fun w =>
          { watcher := w, title := notificationTitle, message := notificationMessage e })) := by
  simp only [callsPerEntry, List.get?_cons_zero]
  rw [dispatch_calls, List.drop_left]

theorem callsPerEntry_append (send : SendOutcome) (pre : List NotifyInstruction) :
    ∀ (rest : List NotifyInstruction) (st : DispatcherState),
      (callsPerEntry send (pre ++ rest) st).get? pre.length =
        (callsPerEntry send rest (dispatcher send pre st)).get? 0 := by
  induction pre with
  | nil => intro rest st; simp [dispatcher]
  | cons e pre ih =>
    intro rest st
    have h := ih rest (dispatch send st e)
    simp only [List.cons_append, callsPerEntry, List.length_cons, List.get?_cons_succ]
    exact h

theorem calls_eq_flatten (send : SendOutcome) (es : List NotifyInstruction) :
    ∀ st : DispatcherState,
      (dispatcher send es st).calls = st.calls ++ (callsPerEntry send es st).flatten := by
  induction es with
  | nil => intro st; simp [dispatcher, callsPerEntry]
  | cons e es ih =>
    intro st
    have h := ih (dispatch send st e)
    simp only [dispatcher, List.foldl_cons, callsPerEntry, List.flatten_cons] at h ⊢
    rw [h, dispatch_calls, List.drop_left, List.append_assoc]

theorem digitChar_value (d : Nat) (hd : d < 10) :
    (Nat.digitChar d).toNat - 48 = d ∧ Nat.digitChar d ≠ '-' := by
  interval_cases d <;> exact ⟨rfl, by decide⟩

theorem toDigitsCore_decimal (fuel : Nat) :
    ∀ n : Nat, n < fuel →
      ∃ L : List Char, (∀ ds, Nat.toDigitsCore 10 fuel n ds = L ++ ds) ∧
        L.foldl (fun acc c => acc * 10 + (c.toNat - 48)) 0 = n ∧
        L ≠ [] ∧ ∀ c ∈ L, c ≠ '-' := by
  induction fuel with
  | zero => intro n hn; omega
  | succ fuel ih =>
    intro n hn
    obtain ⟨hv, hc⟩ := digitChar_value (n % 10) (Nat.mod_lt _ (by decide))
    by_cases h0 : n / 10 = 0
    · refine ⟨[Nat.digitChar (n % 10)], ?_, ?_, by simp, ?_⟩
      · intro ds
        simp [Nat.toDigitsCore, h0]
      · simp only [List.foldl_cons, List.foldl_nil, Nat.zero_mul, Nat.zero_add, hv]
        omega
      · intro c hc1
        rw [List.mem_singleton] at hc1
        rw [hc1]; exact hc
    · obtain ⟨L, hL, hval, _, hdig⟩ := ih (n / 10) (by omega)
      refine ⟨L ++ [Nat.digitChar (n % 10)], ?_, ?_, by simp, ?_⟩
      · intro ds
        simp [Nat.toDigitsCore, h0, hL]
      · rw [List.foldl_append, hval]
        simp only [List.foldl_cons, List.foldl_nil, hv]
        omega
      · intro c hc1
        rcases List.mem_append.1 hc1 with h | h
        · exact hdig c h
        · rw [List.mem_singleton] at h
          rw [h]; exact hc

theorem Nat_repr_decimal (n : Nat) :
    (Nat.repr n).data.foldl (fun acc c => acc * 10 + (c.toNat - 48)) 0 = n ∧
    (Nat.repr n).data ≠ [] ∧ ∀ c ∈ (Nat.repr n).data, c ≠ '-' := by
  obtain ⟨L, hL, hval, hne, hdig⟩ := toDigitsCore_decimal (n + 1) n (Nat.lt_succ_self n)
  have hdata : (Nat.repr n).data = L := by
    simp [Nat.repr, Nat.toDigits, hL, List.asString]
  rw [hdata]
  exact ⟨hval, hne, hdig⟩

theorem Nat_repr_injective (a b : Nat) (h : Nat.repr a = Nat.repr b) : a = b := by
  have ha := (Nat_repr_decimal a).1
  have hb := (Nat_repr_decimal b).1
  rw [h] at ha
  exact ha.symm.trans hb

theorem serialString_injective (a b : Int) (h : serialString a = serialString b) : a = b := by
  unfold serialString at h
  cases a with
  | ofNat m =>
    cases b with
    | ofNat k =>
      have : Nat.repr m = Nat.repr k := h
      rw [Nat_repr_injective m k this]
    | negSucc k =>
      exfalso
      have h1 : Nat.repr m = "-" ++ Nat.repr (k + 1) := h
      obtain ⟨_, hne, hdig⟩ := Nat_repr_decimal m
      have hd : (Nat.repr m).data = '-' :: (Nat.repr (k + 1)).data := by
        rw [h1]; rfl
      exact hdig '-' (by rw [hd]; exact List.mem_cons_self _ _) rfl
  | negSucc m =>
    cases b with
    | ofNat k =>
      exfalso
      have h1 : "-" ++ Nat.repr (m + 1) = Nat.repr k := h
      obtain ⟨_, hne, hdig⟩ := Nat_repr_decimal k
      have hd : (Nat.repr k).data = '-' :: (Nat.repr (m + 1)).data := by
        rw [← h1]; rfl
      exact hdig '-' (by rw [hd]; exact List.mem_cons_self _ _) rfl
    | negSucc k =>
      have h1 : "-" ++ Nat.repr (m + 1) = "-" ++ Nat.repr (k + 1) := h
      have h2 : (Nat.repr (m + 1)).data = (Nat.repr (k + 1)).data := by
        have := congrArg String.data h1
        simp only [String.data_append] at this
        exact List.append_cancel_left this
      have h3 : Nat.repr (m + 1) = Nat.repr (k + 1) := String.ext h2
      have := Nat_repr_injective _ _ h3
      have hmk : m = k := by omega
      rw [hmk]

/-- C3: from an empty set of covered serials, the dispatcher notifies for a
received instruction exactly when no earlier instruction carried the same
certificate serial number: the calls it makes for the instruction after `pre`
are one `Notify` per watcher of its list, in order, when the serial number does
not occur in `pre`, and none when it does, whatever the log description and
whatever errors the notifiers return (`send` is arbitrary).  The key it compares,
the decimal text of the serial, is the same for two serial numbers only when
they are equal.  Delivering the same instruction twice notifies for the first
delivery only, and the calls made are those listed per instruction. -/
theorem C3_dispatcher_notifies_first_serial_only (send : SendOutcome)
    (pre post : List NotifyInstruction) (e : NotifyInstruction) :
    (callsPerEntry send (pre ++ e :: post) {}).get? pre.length =
      some (if e.Certificate.SerialNumber ∈
            pre.map (fun p => p.Certificate.SerialNumber) then []
        else e.Watchers.map (fun w =>
          { watcher := w, title := notificationTitle, message := notificationMessage e })) ∧
    (∀ a b : Int, serialString a = serialString b ↔ a = b) ∧
    callsPerEntry send [e, e] {} =
      [e.Watchers.map (fun w =>
          { watcher := w, title := notificationTitle, message := notificationMessage e }), []] ∧
    (dispatcher send (pre ++ e :: post) {}).calls =
      (callsPerEntry send (pre ++ e :: post) {}).flatten := by
  have hinj : ∀ a b : Int, serialString a = serialString b ↔ a = b :=
    fun a b => ⟨serialString_injective a b, fun h => by rw [h]⟩
  refine ⟨?_, hinj, ?_, ?_⟩
  · rw [callsPerEntry_append, callsPerEntry_head]
    have hcov := dispatcher_covered send pre
      (serialString e.Certificate.SerialNumber) {}
    simp only [List.not_mem_nil, false_or] at hcov
    have hkey : serialString e.Certificate.SerialNumber ∈
          pre.map (fun p => serialString p.Certificate.SerialNumber) ↔
        e.Certificate.SerialNumber ∈ pre.map (fun p => p.Certificate.SerialNumber) := by
      simp only [List.mem_map]
      constructor
      · rintro ⟨p, hp, hs⟩
        exact ⟨p, hp, (hinj _ _).1 hs⟩
      · rintro ⟨p, hp, hs⟩
        exact ⟨p, hp, by rw [hs]⟩
    by_cases h : e.Certificate.SerialNumber ∈ pre.map (fun p => p.Certificate.SerialNumber)
    · rw [if_pos (hcov.2 (hkey.2 h)), if_pos h]
    · rw [if_neg (fun hc => h (hkey.1 (hcov.1 hc))), if_neg h]
  · have h1 : serialString e.Certificate.SerialNumber ∈
        (dispatch send {} e).coveredCertificateSerials :=
      (dispatch_covered send {} e _).2 (Or.inr rfl)
    have hB := dispatch_calls send (dispatch send {} e) e
    rw [if_pos h1, List.append_nil] at hB
    have hA := dispatch_calls send {} e
    rw [if_neg (List.not_mem_nil _)] at hA
    simp only [callsPerEntry]
    rw [hB, List.drop_length, hA]
    simp
  · exact calls_eq_flatten send (pre ++ e :: post) {}

/-! ## `updateLog` -/

theorem scanDNSNames_keeps (config : Config) (l : Labels) (names : List String) :
    ∀ acc : List WatcherConfig × Metrics,
      (scanDNSNames config l names acc).2.prometheusLogIterationsSkipped =
        acc.2.prometheusLogIterationsSkipped := by
  induction names with
  | nil => intro acc; rfl
  | cons n names ih =>
    rintro ⟨ws, m⟩
    simp only [scanDNSNames]
    split
    · rw [ih]
    · rw [ih]

theorem handleEntry_keeps (dec : Decoders) (log : CtLogUpdateLog) (l : Labels)
    (config : Config) (lastTreeSize : Int) (st : LoopState) (entry : ctgo.LeafEntry) :
    (handleEntry dec log l config lastTreeSize st entry).world.lastTreeSizes =
        st.world.lastTreeSizes ∧
    (handleEntry dec log l config lastTreeSize st entry).world.requests =
        st.world.requests ∧
    (handleEntry dec log l config lastTreeSize st entry).world.metrics.prometheusLogIterationsSkipped =
        st.world.metrics.prometheusLogIterationsSkipped ∧
    (handleEntry dec log l config lastTreeSize st entry).exhausted = st.exhausted := by
  cases h1 : dec.RawLogEntryFromLeaf (add64 lastTreeSize st.entriesHandled) entry with
  | error e => simp [handleEntry, h1]
  | ok data =>
    cases h2 : dec.ParseCertificate data with
    | error e => simp [handleEntry, h1, h2]
    | ok cert =>
      have h := scanDNSNames_keeps config l cert.DNSNames
        ((config.WatchersFor cert.CommonName).1,
          { st.world.metrics with
            prometheusLogCertsScanned := inc st.world.metrics.prometheusLogCertsScanned l })
      cases h3 : scanDNSNames config l cert.DNSNames
        ((config.WatchersFor cert.CommonName).1,
          { st.world.metrics with
            prometheusLogCertsScanned := inc st.world.metrics.prometheusLogCertsScanned l }) with
      | mk ws m2 =>
        rw [h3] at h
        by_cases hw : ws.length > 0
        · simp [handleEntry, h1, h2, h3, hw]
          exact h
        · simp [handleEntry, h1, h2, h3, hw]
          exact h


theorem foldl_handleEntry_keeps (dec : Decoders) (log : CtLogUpdateLog) (l : Labels)
    (config : Config) (lastTreeSize : Int) (entries : List ctgo.LeafEntry) :
    ∀ st : LoopState,
      (entries.foldl (handleEntry dec log l config lastTreeSize) st).world.lastTreeSizes =
          st.world.lastTreeSizes ∧
      (entries.foldl (handleEntry dec log l config lastTreeSize) st).world.requests =
          st.world.requests ∧
      (entries.foldl (handleEntry dec log l config lastTreeSize)
          st).world.metrics.prometheusLogIterationsSkipped =
          st.world.metrics.prometheusLogIterationsSkipped ∧
      (entries.foldl (handleEntry dec log l config lastTreeSize) st).exhausted =
          st.exhausted := by
  induction entries with
  | nil => intro st; exact ⟨rfl, rfl, rfl, rfl⟩
  | cons e es ih =>
    intro st
    obtain ⟨a1, a2, a3, a4⟩ := ih (handleEntry dec log l config lastTreeSize st e)
    obtain ⟨b1, b2, b3, b4⟩ := handleEntry_keeps dec log l config lastTreeSize st e
    rw [List.foldl_cons]
    exact ⟨a1.trans b1, a2.trans b2, a3.trans b3, a4.trans b4⟩

theorem entryLoop_keeps (server : LogServer) (dec : Decoders) (log : CtLogUpdateLog)
    (l : Labels) (config : Config) (lastTreeSize treeSize gap : Int) (fuel : Nat) :
    ∀ st : LoopState,
      (entryLoop server dec log l config lastTreeSize treeSize gap fuel st).world.lastTreeSizes =
          st.world.lastTreeSizes ∧
      (entryLoop server dec log l config lastTreeSize treeSize gap fuel
          st).world.metrics.prometheusLogIterationsSkipped =
          st.world.metrics.prometheusLogIterationsSkipped := by
  induction fuel with
  | zero => intro st; exact ⟨rfl, rfl⟩
  | succ fuel ih =>
    intro st
    by_cases hc : st.entriesHandled < gap
    · cases he : (getEntries (server.entries st.world.requests.length
          (add64 lastTreeSize st.entriesHandled) (sub64 treeSize 1))) with
      | mk currentEntries err =>
        cases err with
        | some e => simp [entryLoop, hc, he]
        | none =>
          simp only [entryLoop, hc, he, if_true]
          obtain ⟨a1, a3⟩ := ih (currentEntries.foldl (handleEntry dec log l config lastTreeSize)
            { st with world := { st.world with
                metrics := { st.world.metrics with
                  prometheusLogEntryRequest :=
                    inc st.world.metrics.prometheusLogEntryRequest l }
                requests := st.world.requests ++
                  [(add64 lastTreeSize st.entriesHandled, sub64 treeSize 1)] } })
          obtain ⟨b1, _, b3, _⟩ := foldl_handleEntry_keeps dec log l config lastTreeSize
            currentEntries
            { st with world := { st.world with
                metrics := { st.world.metrics with
                  prometheusLogEntryRequest :=
                    inc st.world.metrics.prometheusLogEntryRequest l }
                requests := st.world.requests ++
                  [(add64 lastTreeSize st.entriesHandled, sub64 treeSize 1)] } }
          exact ⟨a1.trans b1, a3.trans b3⟩
    · simp [entryLoop, hc]

/-- The tree sizes `updateLog` leaves: untouched when `get-sth` fails, the new
tree size stored for the log otherwise, on every path. -/
theorem updateLog_lastTreeSizes (server : LogServer) (dec : Decoders) (fuel : Nat)
    (log : CtLogUpdateLog) (l : Labels) (config : Config) (w : World) :
    (updateLog server dec fuel log l config w).world.lastTreeSizes =
      match getSTH server.sth with
      | .error _ => w.lastTreeSizes
      | .ok treeSize => w.lastTreeSizes.Store log.LogID treeSize := by
  cases hs : getSTH server.sth with
  | error e => simp [updateLog, hs]
  | ok treeSize =>
    cases hp : w.lastTreeSizes log.LogID with
    | none => simp [updateLog, hs, SyncMap.Swap, hp]
    | some prev =>
      simp only [updateLog, hs, SyncMap.Swap, hp]
      split_ifs
      · rfl
      · rfl
      · rfl
      · exact (entryLoop_keeps server dec log l config prev treeSize _ fuel _).1
      · exact (entryLoop_keeps server dec log l config prev treeSize _ fuel _).1


theorem SyncMap.Store_same {α : Type} (m : SyncMap α) (key : String) (v : α) :
    m.Store key v key = some v := by
  simp [SyncMap.Store]

/-- C4 (baseline): when the log has no previous tree size or the previous tree
size is 0, and `get-sth` succeeds with tree size `N`, `updateLog` returns success
with `LastTreeSize = N`, having issued no `get-entries` request (the request
record and the request counter are unchanged) and sent no match event, for every
`N`, every `MaxHandleableLogGap` and every fuel. -/
theorem C4_baseline_fetches_nothing (server : LogServer) (dec : Decoders) (fuel : Nat)
    (log : CtLogUpdateLog) (l : Labels) (config : Config) (w : World) (N : Int)
    (hprev : w.lastTreeSizes log.LogID = none ∨ w.lastTreeSizes log.LogID = some 0)
    (hsth : getSTH server.sth = .ok N) :
    (updateLog server dec fuel log l config w).returned = some true ∧
    (updateLog server dec fuel log l config w).world.lastTreeSizes log.LogID = some N ∧
    (updateLog server dec fuel log l config w).world.requests = w.requests ∧
    (updateLog server dec fuel log l config w).world.metrics.prometheusLogEntryRequest =
      w.metrics.prometheusLogEntryRequest ∧
    (updateLog server dec fuel log l config w).world.channel = w.channel := by
  rcases hprev with hp | hp
  · simp [updateLog, hsth, SyncMap.Swap, hp, SyncMap.Store]
  · simp [updateLog, hsth, SyncMap.Swap, hp, SyncMap.Store]

/-- C4 on a fresh process: the first observation of `sampleLog` with
`tree_size = 100` stores 100 and fetches nothing. -/
theorem C4_baseline_fetches_nothing_witness :
    (updateLog (serverWithSize 100) sampleDecoders 5 sampleLog sampleLabels sampleConfig
      {}).returned = some true ∧
    (updateLog (serverWithSize 100) sampleDecoders 5 sampleLog sampleLabels sampleConfig
      {}).world.lastTreeSizes sampleLog.LogID = some 100 ∧
    (updateLog (serverWithSize 100) sampleDecoders 5 sampleLog sampleLabels sampleConfig
      {}).world.requests = [] ∧
    (updateLog (serverWithSize 100) sampleDecoders 5 sampleLog sampleLabels sampleConfig
      {}).world.metrics.prometheusLogEntryRequest = (fun _ => 0) ∧
    (updateLog (serverWithSize 100) sampleDecoders 5 sampleLog sampleLabels sampleConfig
      {}).world.channel = [] :=
  C4_baseline_fetches_nothing (serverWithSize 100) sampleDecoders 5 sampleLog sampleLabels
    sampleConfig {} 100 (Or.inl rfl) rfl

theorem sub64_eq_sub (N prev : Int) (hN : isInt64 N) (hp : isInt64 prev)
    (hN0 : 0 ≤ N) (hp0 : 0 ≤ prev) : sub64 N prev = N - prev := by
  unfold isInt64 at hN hp
  unfold sub64 wrap64
  omega

/-- C5 (gap cap): for a log whose previous tree size `prev` is present and
non-zero and a `get-sth` answer `N`, with `N - prev` the `int64` difference
`updateLog` computes (the exact difference whenever both sizes are non-negative):
if it exceeds `MaxHandleableLogGap`, `updateLog` returns success with
`LastTreeSize = N`, no `get-entries` request, no match event, and the skipped
counter of the log's labels one higher (all other labels unchanged); if it does
not exceed it, the skipped counter is unchanged at every label, whatever the
entry loop does and at whatever fuel. -/
theorem C5_gap_cap_skips_once (server : LogServer) (dec : Decoders) (fuel : Nat)
    (log : CtLogUpdateLog) (l : Labels) (config : Config) (w : World) (prev N : Int)
    (hprev : w.lastTreeSizes log.LogID = some prev) (hnz : prev ≠ 0)
    (hsth : getSTH server.sth = .ok N) :
    (sub64 N prev > config.LogCollection.MaxHandleableLogGap →
      (updateLog server dec fuel log l config w).returned = some true ∧
      (updateLog server dec fuel log l config w).world.lastTreeSizes log.LogID = some N ∧
      (updateLog server dec fuel log l config w).world.requests = w.requests ∧
      (updateLog server dec fuel log l config w).world.metrics.prometheusLogEntryRequest =
        w.metrics.prometheusLogEntryRequest ∧
      (updateLog server dec fuel log l config w).world.channel = w.channel ∧
      (updateLog server dec fuel log l config w).world.metrics.prometheusLogIterationsSkipped l =
        w.metrics.prometheusLogIterationsSkipped l + 1 ∧
      ∀ k, k ≠ l →
        (updateLog server dec fuel log l config w).world.metrics.prometheusLogIterationsSkipped k =
          w.metrics.prometheusLogIterationsSkipped k) ∧
    (sub64 N prev ≤ config.LogCollection.MaxHandleableLogGap →
      (updateLog server dec fuel log l config w).world.metrics.prometheusLogIterationsSkipped =
        w.metrics.prometheusLogIterationsSkipped) ∧
    (isInt64 N → isInt64 prev → 0 ≤ N → 0 ≤ prev → sub64 N prev = N - prev) := by
  refine ⟨?_, ?_, sub64_eq_sub N prev⟩
  · intro hg
    simp only [updateLog, hsth, SyncMap.Swap, hprev, if_neg hnz, if_pos hg]
    refine ⟨trivial, SyncMap.Store_same _ _ _, trivial, trivial, trivial, ?_, ?_⟩
    · simp [inc]
    · intro k hk
      simp [inc, hk]
  · intro hg
    have hg1 : ¬ sub64 N prev > config.LogCollection.MaxHandleableLogGap := not_lt.2 hg
    simp only [updateLog, hsth, SyncMap.Swap, hprev, if_neg hnz, if_neg hg1]
    split_ifs
    · rfl
    · exact (entryLoop_keeps server dec log l config prev N _ fuel _).2
    · exact (entryLoop_keeps server dec log l config prev N _ fuel _).2

/-- C5 at the scenario of the specification: `MaxHandleableLogGap = 1000`,
previous tree size 100, `tree_size = 1000000`. -/
theorem C5_gap_cap_skips_once_witness :
    (updateLog (serverWithSize 1000000) sampleDecoders 5 sampleLog sampleLabels sampleConfig
      worldAt100).returned = some true ∧
    (updateLog (serverWithSize 1000000) sampleDecoders 5 sampleLog sampleLabels sampleConfig
      worldAt100).world.lastTreeSizes sampleLog.LogID = some 1000000 ∧
    (updateLog (serverWithSize 1000000) sampleDecoders 5 sampleLog sampleLabels sampleConfig
      worldAt100).world.requests = [] ∧
    (updateLog (serverWithSize 1000000) sampleDecoders 5 sampleLog sampleLabels sampleConfig
      worldAt100).world.channel = [] ∧
    (updateLog (serverWithSize 1000000) sampleDecoders 5 sampleLog sampleLabels sampleConfig
      worldAt100).world.metrics.prometheusLogIterationsSkipped sampleLabels = 1 := by
  have h := (C5_gap_cap_skips_once (serverWithSize 1000000) sampleDecoders 5 sampleLog
    sampleLabels sampleConfig worldAt100 100 1000000 rfl (by decide) rfl).1 (by decide)
  exact ⟨h.1, h.2.1, h.2.2.1, h.2.2.2.2.1, h.2.2.2.2.2.1⟩


theorem updateLog_lastTreeSize_of_log (server : LogServer) (dec : Decoders) (fuel : Nat)
    (log : CtLogUpdateLog) (l : Labels) (config : Config) (w : World) :
    (updateLog server dec fuel log l config w).world.lastTreeSizes log.LogID =
      match getSTH server.sth with
      | .error _ => w.lastTreeSizes log.LogID
      | .ok treeSize => some treeSize := by
  rw [updateLog_lastTreeSizes]
  cases getSTH server.sth with
  | error e => rfl
  | ok treeSize => exact SyncMap.Store_same _ _ _

theorem runUpdates_sizes_sorted (dec : Decoders) (fuel : Nat) (log : CtLogUpdateLog)
    (l : Labels) (config : Config) (servers : List LogServer) :
    ∀ w : World,
      List.Pairwise (· ≤ ·) ((w.lastTreeSizes log.LogID).toList ++
        servers.filterMap (fun s => (getSTH s.sth).toOption)) →
      List.Pairwise (· ≤ ·) ((w.lastTreeSizes log.LogID).toList ++
        (runUpdates dec fuel log l config servers w).filterMap
          (fun r => r.world.lastTreeSizes log.LogID)) := by
  induction servers with
  | nil => intro w h; simpa [runUpdates] using h
  | cons s rest ih =>
    intro w h
    have hstep := updateLog_lastTreeSize_of_log s dec fuel log l config w
    have hrec := ih (updateLog s dec fuel log l config w).world
    simp only [runUpdates, List.filterMap_cons] at h ⊢
    cases hs : getSTH s.sth with
    | error e =>
      rw [hs] at hstep h
      simp only [Except.toOption] at h
      rw [hstep] at hrec ⊢
      have h1 := hrec h
      cases hp : w.lastTreeSizes log.LogID with
      | none => rw [hp] at h1; simpa using h1
      | some v =>
        rw [hp] at h1
        simp only [Option.toList, List.singleton_append, List.pairwise_cons] at h1 ⊢
        refine ⟨?_, h1⟩
        intro x hx
        rcases List.mem_cons.1 hx with hx | hx
        · rw [hx]
        · exact h1.1 x hx
    | ok N =>
      rw [hs] at hstep h
      simp only [Except.toOption] at h
      rw [hstep] at hrec ⊢
      have h1 := hrec (by
        simp only [Option.toList, List.singleton_append]
        exact (List.pairwise_append.1 h).2.1)
      simp only [Option.toList, List.singleton_append, List.pairwise_cons] at h1
      cases hp : w.lastTreeSizes log.LogID with
      | none =>
        simp only [Option.toList, List.nil_append, List.pairwise_cons]
        exact h1
      | some v =>
        rw [hp] at h
        simp only [Option.toList, List.singleton_append, List.pairwise_cons] at h ⊢
        have hvN : v ≤ N := h.1 N (List.mem_cons_self _ _)
        refine ⟨?_, h1⟩
        intro x hx
        rcases List.mem_cons.1 hx with hx | hx
        · rw [hx]; exact hvN
        · exact le_trans hvN (h1.1 x hx)

/-- C6, as stated, fails: two successive executions of `updateLog` on
`sampleLog`, the server reporting `tree_size = 100` and then `tree_size = 50`,
store `LastTreeSize` 100 and then 50. -/
theorem C6_lastTreeSize_can_decrease :
    (runUpdates sampleDecoders 5 sampleLog sampleLabels sampleConfig
        [serverWithSize 100, serverWithSize 50] {}).map
      (fun r => r.world.lastTreeSizes sampleLog.LogID) = [some 100, some 50] ∧
    ¬ List.Pairwise (· ≤ ·) ([100, 50] : List Int) := by
  constructor
  · simp only [runUpdates, List.map_cons, List.map_nil]
    rw [updateLog_lastTreeSize_of_log, updateLog_lastTreeSize_of_log]
    rfl
  · decide

/-- C6, amended: after an execution of `updateLog` the `LastTreeSize` of the log
is the tree size of that execution's `get-sth` when it succeeded and the previous
value when it failed; hence over successive executions the stored values are
non-decreasing whenever the tree sizes the server reports (following the value
stored at the start, if any) are non-decreasing. -/
theorem C6_lastTreeSize_follows_sth (dec : Decoders) (fuel : Nat) (log : CtLogUpdateLog)
    (l : Labels) (config : Config) (servers : List LogServer) (w : World) :
    (∀ server : LogServer,
      (updateLog server dec fuel log l config w).world.lastTreeSizes log.LogID =
        match getSTH server.sth with
        | .error _ => w.lastTreeSizes log.LogID
        | .ok treeSize => some treeSize) ∧
    (List.Pairwise (· ≤ ·) ((w.lastTreeSizes log.LogID).toList ++
        servers.filterMap (fun s => (getSTH s.sth).toOption)) →
      List.Pairwise (· ≤ ·) ((w.lastTreeSizes log.LogID).toList ++
        (runUpdates dec fuel log l config servers w).filterMap
          (fun r => r.world.lastTreeSizes log.LogID))) :=
  ⟨fun server => updateLog_lastTreeSize_of_log server dec fuel log l config w,
   runUpdates_sizes_sorted dec fuel log l config servers w⟩

/-- C6, amended, on a server that reports 100, then fails, then reports 105,
with 100 stored at the start. -/
theorem C6_lastTreeSize_follows_sth_witness :
    List.Pairwise (· ≤ ·) ((worldAt100.lastTreeSizes sampleLog.LogID).toList ++
      (runUpdates sampleDecoders 5 sampleLog sampleLabels sampleConfig
        [serverWithSize 100, serverDown, serverWithSize 105] worldAt100).filterMap
          (fun r => r.world.lastTreeSizes sampleLog.LogID)) :=
  (C6_lastTreeSize_follows_sth sampleDecoders 5 sampleLog sampleLabels sampleConfig
    [serverWithSize 100, serverDown, serverWithSize 105] worldAt100).2 (by decide)


/-! ## The scheduler -/

theorem ids_perm_eraseIdx (ws : List Worker) :
    ∀ (i : Nat) (w : Worker), ws.get? i = some w →
      List.Perm (ws.map fun x => x.log.LogID)
        (w.log.LogID :: (ws.eraseIdx i).map fun x => x.log.LogID) := by
  induction ws with
  | nil => intro i w h; simp at h
  | cons a t ih =>
    intro i w h
    cases i with
    | zero =>
      simp only [List.get?_cons_zero, Option.some.injEq] at h
      subst h
      simp
    | succ i =>
      simp only [List.get?_cons_succ] at h
      simp only [List.map_cons, List.eraseIdx_cons_succ]
      exact ((ih i w h).cons a.log.LogID).trans (List.Perm.swap _ _ _)

theorem ids_set_phase (ws : List Worker) :
    ∀ (i : Nat) (w : Worker) (p : WorkerPhase), ws.get? i = some w →
      (ws.set i { w with phase := p }).map (fun x => x.log.LogID) =
        ws.map fun x => x.log.LogID := by
  induction ws with
  | nil => intro i w p h; simp at h
  | cons a t ih =>
    intro i w p h
    cases i with
    | zero =>
      simp only [List.get?_cons_zero, Option.some.injEq] at h
      subst h
      simp
    | succ i =>
      simp only [List.get?_cons_succ] at h
      simp only [List.set_cons_succ, List.map_cons, ih i w p h]

theorem LockInvariant_release (st : LoopWorld) (i : Nat) (w : Worker)
    (fs : SyncMap Int) (hinv : LockInvariant st) (hw : st.workers.get? i = some w) :
    LockInvariant { st with
      failureStreak := fs
      lockMap := st.lockMap.Store w.log.LogID false
      workers := st.workers.eraseIdx i } := by
  obtain ⟨hnd, hlock⟩ := hinv
  have hperm := ids_perm_eraseIdx st.workers i w hw
  have hnd1 := (hperm.nodup_iff).1 hnd
  rw [List.nodup_cons] at hnd1
  refine ⟨hnd1.2, ?_⟩
  intro k
  show (st.lockMap.Store w.log.LogID false) k = some true ↔
    k ∈ (st.workers.eraseIdx i).map fun x => x.log.LogID
  by_cases hk : k = w.log.LogID
  · subst hk
    simp only [SyncMap.Store, if_true]
    constructor
    · intro h; cases h
    · intro h; exact absurd h hnd1.1
  · simp only [SyncMap.Store, if_neg hk]
    rw [hlock k]
    show k ∈ (st.workers.map fun x => x.log.LogID) ↔ _
    rw [hperm.mem_iff, List.mem_cons]
    constructor
    · rintro (h | h)
      · exact absurd h hk
      · exact h
    · intro h; exact Or.inr h


theorem LockInvariant_dispatchLog (st : LoopWorld) (log : CtLogUpdateLog)
    (hinv : LockInvariant st) : LockInvariant (dispatchLog st log) := by
  obtain ⟨hnd, hlock⟩ := hinv
  by_cases hheld : st.lockMap log.LogID = some true
  · have : dispatchLog st log = { st with
        metrics := { st.metrics with
          prometheusLogIterationsMissed :=
            inc st.metrics.prometheusLogIterationsMissed (log.OperatorName, log.Description) } } := by
      simp [dispatchLog, hheld]
    rw [this]
    exact ⟨hnd, hlock⟩
  · have hfree : log.LogID ∉ workerIDs st := fun h => hheld ((hlock _).2 h)
    have hw : (dispatchLog st log).workers =
        st.workers ++ [{ log := log, phase := WorkerPhase.updating }] := by
      cases hl : st.lockMap log.LogID with
      | none => simp [dispatchLog, hl, SyncMap.Store]
      | some b =>
        cases b with
        | true => exact absurd hl hheld
        | false => simp [dispatchLog, hl]
    have hm : ∀ k, (dispatchLog st log).lockMap k =
        if k = log.LogID then some true else st.lockMap k := by
      intro k
      cases hl : st.lockMap log.LogID with
      | none =>
        by_cases hk : k = log.LogID
        · simp [dispatchLog, hl, SyncMap.Store, hk]
        · simp [dispatchLog, hl, SyncMap.Store, hk]
      | some b =>
        cases b with
        | true => exact absurd hl hheld
        | false => simp [dispatchLog, hl, SyncMap.Store]
    have hids : workerIDs (dispatchLog st log) = workerIDs st ++ [log.LogID] := by
      simp [workerIDs, hw]
    constructor
    · rw [hids]
      exact List.Nodup.append hnd (List.nodup_singleton _)
        (by
          intro a ha hb
          rw [List.mem_singleton] at hb
          exact hfree (hb ▸ ha))
    · intro k
      rw [hm k, hids, List.mem_append, List.mem_singleton]
      by_cases hk : k = log.LogID
      · simp [hk]
      · simp [hk, hlock k]

theorem LockInvariant_foldl_dispatchLog (logs : List CtLogUpdateLog) :
    ∀ st : LoopWorld, LockInvariant st → LockInvariant (logs.foldl dispatchLog st) := by
  induction logs with
  | nil => intro st h; exact h
  | cons log logs ih =>
    intro st h
    exact ih _ (LockInvariant_dispatchLog st log h)

theorem LockInvariant_tick (config : Config) (refresh : Option (Except String CtLogUpdate))
    (st : LoopWorld) (hinv : LockInvariant st) : LockInvariant (tick config refresh st) := by
  unfold tick
  exact LockInvariant_foldl_dispatchLog _ _ hinv

theorem LockInvariant_workerReturns (st : LoopWorld) (i : Nat) (wasOk : Bool)
    (hinv : LockInvariant st) : LockInvariant (workerReturns st i wasOk) := by
  unfold workerReturns
  cases hw : st.workers.get? i with
  | none => exact hinv
  | some w =>
    cases hp : w.phase with
    | sleeping d => simp only [hp]; exact hinv
    | updating =>
      cases wasOk with
      | true =>
        simp only [hp, if_true]
        exact LockInvariant_release st i w _ hinv hw
      | false =>
        simp only [hp, Bool.false_eq_true, if_false]
        obtain ⟨hnd, hlock⟩ := hinv
        have hids := ids_set_phase st.workers i w
          (WorkerPhase.sleeping (failureBackoff st.failureStreak w.log.LogID).2) hw
        constructor
        · show ((st.workers.set i _).map fun x => x.log.LogID).Nodup
          rw [hids]; exact hnd
        · intro k
          show st.lockMap k = some true ↔ k ∈ (st.workers.set i _).map fun x => x.log.LogID
          rw [hids]; exact hlock k

theorem LockInvariant_workerWakes (st : LoopWorld) (i : Nat)
    (hinv : LockInvariant st) : LockInvariant (workerWakes st i) := by
  unfold workerWakes
  cases hw : st.workers.get? i with
  | none => exact hinv
  | some w =>
    cases hp : w.phase with
    | updating => simp only [hp]; exact hinv
    | sleeping d =>
      simp only [hp]
      exact LockInvariant_release st i w st.failureStreak hinv hw

theorem LockInvariant_of_reachable (st : LoopWorld) (h : Reachable st) : LockInvariant st := by
  induction h with
  | start =>
    constructor
    · exact List.nodup_nil
    · intro k
      simp [workerIDs]
  | step _ hstep ih =>
    cases hstep with
    | ticks config refresh => exact LockInvariant_tick config refresh _ ih
    | dispatch log => exact LockInvariant_dispatchLog _ log ih
    | returns i wasOk => exact LockInvariant_workerReturns _ i wasOk ih
    | wakes i => exact LockInvariant_workerWakes _ i ih

theorem filter_length_le_one (ws : List Worker) (k : String)
    (hnd : (ws.map fun w => w.log.LogID).Nodup) :
    (ws.filter fun w => w.log.LogID = k).length ≤ 1 := by
  induction ws with
  | nil => simp
  | cons a t ih =>
    simp only [List.map_cons, List.nodup_cons] at hnd
    by_cases ha : a.log.LogID = k
    · have hnone : t.filter (fun w => decide (w.log.LogID = k)) = [] := by
        rw [List.filter_eq_nil_iff]
        intro w hw hk
        simp only [decide_eq_true_eq] at hk
        exact hnd.1 (List.mem_map.2 ⟨w, hw, hk.trans ha.symm⟩)
      simp [List.filter_cons, ha, hnone]
    · simp only [List.filter_cons, ha, decide_False, Bool.false_eq_true, if_false]
      exact ih hnd.2


theorem filter_length_pos_iff (ws : List Worker) (k : String) :
    0 < (ws.filter fun w => w.log.LogID = k).length ↔ k ∈ ws.map fun w => w.log.LogID := by
  rw [List.length_pos_iff_exists_mem]
  constructor
  · rintro ⟨w, hw⟩
    rw [List.mem_filter] at hw
    exact List.mem_map.2 ⟨w, hw.1, by simpa using hw.2⟩
  · intro h
    obtain ⟨w, hw, hk⟩ := List.mem_map.1 h
    exact ⟨w, List.mem_filter.2 ⟨hw, by simpa using hk⟩⟩

/-- C7: in every state the scheduler can reach (by whole ticks, single log
dispatches, workers leaving `updateLog` with either result, and sleeping workers
waking), each `LogID` has at most one live worker, and its mutex is locked
exactly when it has one.  A dispatch on a locked `LogID` starts no worker and
increments the missed counter of the log's labels; a dispatch on a free one
starts one worker and leaves the counter alone. -/
theorem C7_one_worker_per_log (st : LoopWorld) (h : Reachable st) :
    (∀ logID : String, inFlight st logID ≤ 1) ∧
    (∀ logID : String, st.lockMap logID = some true ↔ inFlight st logID = 1) ∧
    (∀ log : CtLogUpdateLog, st.lockMap log.LogID = some true →
      (dispatchLog st log).workers = st.workers ∧
      (dispatchLog st log).metrics.prometheusLogIterationsMissed
          (log.OperatorName, log.Description) =
        st.metrics.prometheusLogIterationsMissed (log.OperatorName, log.Description) + 1) ∧
    (∀ log : CtLogUpdateLog, st.lockMap log.LogID ≠ some true →
      (dispatchLog st log).workers =
        st.workers ++ [{ log := log, phase := WorkerPhase.updating }] ∧
      (dispatchLog st log).metrics.prometheusLogIterationsMissed =
        st.metrics.prometheusLogIterationsMissed) := by
  obtain ⟨hnd, hlock⟩ := LockInvariant_of_reachable st h
  have hle : ∀ logID : String, inFlight st logID ≤ 1 :=
    fun logID => filter_length_le_one st.workers logID hnd
  refine ⟨hle, ?_, ?_, ?_⟩
  · intro logID
    rw [hlock logID]
    have hpos := filter_length_pos_iff st.workers logID
    have h1 := hle logID
    unfold inFlight at h1 ⊢
    unfold workerIDs
    rw [← hpos]
    omega
  · intro log hheld
    simp [dispatchLog, hheld, inc]
  · intro log hfree
    cases hl : st.lockMap log.LogID with
    | none => simp [dispatchLog, hl, SyncMap.Store]
    | some b =>
      cases b with
      | true => exact absurd hl hfree
      | false => simp [dispatchLog, hl]

/-- C7 on the state reached by dispatching `sampleLog` twice: the second
dispatch found the mutex locked, one worker is live. -/
theorem C7_one_worker_per_log_witness :
    inFlight sampleBusy sampleLog.LogID ≤ 1 ∧
    (sampleBusy.lockMap sampleLog.LogID = some true ↔ inFlight sampleBusy sampleLog.LogID = 1) :=
  ⟨(C7_one_worker_per_log sampleBusy
      (Reachable.step (Reachable.step Reachable.start (SchedulerStep.dispatch _ sampleLog))
        (SchedulerStep.dispatch _ sampleLog))).1 sampleLog.LogID,
   (C7_one_worker_per_log sampleBusy
      (Reachable.step (Reachable.step Reachable.start (SchedulerStep.dispatch _ sampleLog))
        (SchedulerStep.dispatch _ sampleLog))).2.1 sampleLog.LogID⟩


/-! ## Failure backoff -/

theorem failureBackoff_absent (m : SyncMap Int) (logID : String) (hm : m logID = none) :
    failureBackoff m logID = (m.Store logID 0, Minute) := by
  simp [failureBackoff, SyncMap.LoadOrStore, hm, add64, mul64, wrap64, Minute]

theorem failureBackoff_present (m : SyncMap Int) (logID : String) (v : Int)
    (hm : m logID = some v) (h0 : 0 ≤ v) (h1 : v ≤ 30000000) :
    failureBackoff m logID = (m.Store logID (v + 1), (5 * v + 1) * Minute) := by
  have e1 : add64 v 1 = v + 1 := by unfold add64 wrap64; omega
  have e2 : add64 (mul64 v 5) 1 = 5 * v + 1 := by unfold add64 mul64 wrap64; omega
  have e3 : mul64 (5 * v + 1) Minute = (5 * v + 1) * Minute := by
    unfold mul64 wrap64 Minute; omega
  simp [failureBackoff, SyncMap.LoadOrStore, hm, e1, e2, e3]

theorem failures_schedule (logID : String) (m : SyncMap Int) (hm : m logID = none) :
    ∀ n : Nat, n ≤ 30000000 →
      (failures logID n m).2 =
        (List.range n).map (fun i : Nat =>
          (if i = 0 then 1 else 5 * ((i : Int) - 1) + 1) * Minute) ∧
      (failures logID n m).1 logID = (if n = 0 then none else some ((n : Int) - 1)) := by
  intro n
  induction n with
  | zero => intro _; exact ⟨rfl, hm⟩
  | succ n ih =>
    intro hn
    obtain ⟨hs, hv⟩ := ih (by omega)
    by_cases h0 : n = 0
    · subst h0
      simp only [if_true] at hv
      have hb := failureBackoff_absent (failures logID 0 m).1 logID hv
      simp only [failures] at hb ⊢
      rw [hb]
      simp [SyncMap.Store, List.range_succ]
    · rw [if_neg h0] at hv
      have hb := failureBackoff_present (failures logID n m).1 logID ((n : Int) - 1) hv
        (by omega) (by omega)
      simp only [failures]
      rw [hb]
      simp only [hs, List.range_succ, List.map_append, List.map_cons, List.map_nil, if_neg h0]
      refine ⟨trivial, ?_⟩
      simp [SyncMap.Store]


/-- C8, as stated, fails: for a log with no recorded streak, three consecutive
failed updates sleep 1, 1 and 6 minutes (not 1, 6 and 11), and the streak stored
after them is 2 (not 3). -/
theorem C8_second_failure_sleeps_one_minute :
    (failures "https://ct.example/log/" 3 (fun _ => none)).2 =
      [1 * Minute, 1 * Minute, 6 * Minute] ∧
    (failures "https://ct.example/log/" 3 (fun _ => none)).1 "https://ct.example/log/" =
      some 2 := by
  decide

/-- C8, amended: for a log with no recorded failure streak, the first failed
attempt sleeps 1 minute and records streak 0; the `k`-th consecutive failed
attempt for `k ≥ 2` sleeps `5*(k-2)+1` minutes (1, 6, 11, ... for the second,
third, fourth) and leaves streak `k-1`; a successful update deletes the streak,
so the failure after it sleeps 1 minute again.  Sleeps are in nanoseconds, for
up to 30000000 consecutive failures (no `int64` overflow). -/
theorem C8_backoff_schedule (logID : String) (m : SyncMap Int) (n : Nat)
    (hm : m logID = none) (hn : n ≤ 30000000) :
    (failures logID n m).2 =
      (List.range n).map (fun i : Nat =>
        (if i = 0 then 1 else 5 * ((i : Int) - 1) + 1) * Minute) ∧
    (failures logID n m).1 logID = (if n = 0 then none else some ((n : Int) - 1)) ∧
    (failureBackoff ((failures logID n m).1.Delete logID) logID).2 = Minute := by
  obtain ⟨h1, h2⟩ := failures_schedule logID m hm n hn
  refine ⟨h1, h2, ?_⟩
  rw [failureBackoff_absent _ logID (by simp [SyncMap.Delete])]

/-- C8, amended, for four consecutive failures from an empty streak map: sleeps
of 1, 1, 6 and 11 minutes, streak 3. -/
theorem C8_backoff_schedule_witness :
    (failures "https://ct.example/log/" 4 (fun _ => none)).2 =
      (List.range 4).map (fun i : Nat =>
        (if i = 0 then 1 else 5 * ((i : Int) - 1) + 1) * Minute) ∧
    (failures "https://ct.example/log/" 4 (fun _ => none)).1 "https://ct.example/log/" =
      (if 4 = 0 then none else some ((4 : Nat) - 1 : Int)) ∧
    (failureBackoff ((failures "https://ct.example/log/" 4 (fun _ => none)).1.Delete
      "https://ct.example/log/") "https://ct.example/log/").2 = Minute :=
  C8_backoff_schedule "https://ct.example/log/" (fun _ => none) 4 rfl (by decide)


/-! ## The logs of a tick -/

/-- C9 at its failing input: the configuration with only `logsURLs` passes
`LoadConfig`, the tick builds `logsToUpdate = [sampleLog]` from it, and yet the
tick starts no worker and locks no mutex, whatever the refresh delivers: the
dispatch loop ranges over `logUpdate.Logs`, which holds no static URL. -/
theorem C9_static_urls_never_polled :
    (∃ c, LoadConfig sampleLibraries (.ok sampleDecoded) = .ok c ∧
      c.LogCollection.LogsURLs = ["https://ct.example/log/"] ∧
      c.LogCollection.GoogleLogListURL = "") ∧
    logsToUpdate sampleConfig {} = [sampleLog] ∧
    (∀ refresh, (tick sampleConfig refresh {}).workers = []) ∧
    (∀ refresh, (tick sampleConfig refresh {}).lockMap sampleLog.LogID = none) := by
  refine ⟨⟨_, rfl, rfl, rfl⟩, rfl, ?_, ?_⟩
  · intro refresh
    rfl
  · intro refresh
    rfl


/-! ## `LoadConfig` -/

theorem prepareWatcher_ok (libs : Libraries) (i : Nat) (w w1 : WatcherConfig)
    (h : prepareWatcher libs i w = .ok w1) :
    w1.Glob = w.Glob ∧ w1.RegexpRaw = w.RegexpRaw ∧ w1.Notifiers = w.Notifiers ∧
    w.Notifiers ≠ [] ∧
    ((TrimSpace w.RegexpRaw ≠ "" ∧ TrimSpace w.Glob = "" ∧
        w1.kind = patternKind.pkRegex ∧ w1.re.isSome = true) ∨
     (TrimSpace w.RegexpRaw = "" ∧ TrimSpace w.Glob ≠ "" ∧
        w1.kind = patternKind.pkGlob ∧ w1.gl.isSome = true)) := by
  unfold prepareWatcher at h
  by_cases hr : TrimSpace w.RegexpRaw = ""
  · by_cases hq : TrimSpace w.Glob = ""
    · simp [hr, hq] at h
    · cases hc : libs.globCompile w.Glob with
      | error e => simp [hr, hq, hc] at h
      | ok g =>
        by_cases hn : w.Notifiers.length = 0
        · simp [hr, hq, hc, hn] at h
        · cases hu : collectSenderURLs i 0 w.Notifiers with
          | error e => simp [hr, hq, hc, hn, hu] at h
          | ok urls =>
            cases hs : libs.NewSender urls with
            | error e => simp [hr, hq, hc, hn, hu, hs] at h
            | ok sender =>
              simp [hr, hq, hc, hn, hu, hs] at h
              subst h
              refine ⟨rfl, rfl, rfl, ?_, Or.inr ⟨hr, hq, rfl, rfl⟩⟩
              intro hnil
              exact hn (by rw [hnil]; rfl)
  · by_cases hq : TrimSpace w.Glob = ""
    · cases hc : libs.regexpCompile w.RegexpRaw with
      | error e => simp [hr, hq, hc] at h
      | ok re =>
        by_cases hn : w.Notifiers.length = 0
        · simp [hr, hq, hc, hn] at h
        · cases hu : collectSenderURLs i 0 w.Notifiers with
          | error e => simp [hr, hq, hc, hn, hu] at h
          | ok urls =>
            cases hs : libs.NewSender urls with
            | error e => simp [hr, hq, hc, hn, hu, hs] at h
            | ok sender =>
              simp [hr, hq, hc, hn, hu, hs] at h
              subst h
              refine ⟨rfl, rfl, rfl, ?_, Or.inl ⟨hr, hq, rfl, rfl⟩⟩
              intro hnil
              exact hn (by rw [hnil]; rfl)
    · simp [hr, hq] at h

theorem prepareWatchers_ok (libs : Libraries) (ws : List WatcherConfig) :
    ∀ (i : Nat) (ws1 : List WatcherConfig), prepareWatchers libs i ws = .ok ws1 →
      ws1.length = ws.length ∧
      (∀ w ∈ ws, ∃ j w1, prepareWatcher libs j w = .ok w1) ∧
      (∀ w1 ∈ ws1, ∃ j w, prepareWatcher libs j w = .ok w1) := by
  induction ws with
  | nil =>
    intro i ws1 h
    simp only [prepareWatchers, Except.ok.injEq] at h
    subst h
    simp
  | cons w ws ih =>
    intro i ws1 h
    simp only [prepareWatchers] at h
    cases hw : prepareWatcher libs i w with
    | error e => simp [hw] at h
    | ok w1 =>
      cases hrest : prepareWatchers libs (i + 1) ws with
      | error e => simp [hw, hrest] at h
      | ok rest =>
        simp only [hw, hrest, Except.ok.injEq] at h
        subst h
        obtain ⟨hlen, hin, hout⟩ := ih (i + 1) rest hrest
        refine ⟨by simp [hlen], ?_, ?_⟩
        · intro x hx
          rcases List.mem_cons.1 hx with hx | hx
          · exact ⟨i, w1, hx ▸ hw⟩
          · exact hin x hx
        · intro x hx
          rcases List.mem_cons.1 hx with hx | hx
          · exact ⟨i, w, hx ▸ hw⟩
          · exact hout x hx

theorem LoadConfig_ok (libs : Libraries) (cfg c : Config)
    (h : LoadConfig libs (.ok cfg) = .ok c) :
    ¬ (TrimSpace cfg.LogCollection.GoogleLogListURL = "" ∧ cfg.LogCollection.LogsURLs = []) ∧
    cfg.Watchers ≠ [] ∧
    c.LogCollection = cfg.LogCollection ∧
    prepareWatchers libs 0 cfg.Watchers = .ok c.Watchers := by
  unfold LoadConfig at h
  simp only at h
  by_cases h1 : TrimSpace cfg.LogCollection.GoogleLogListURL = "" ∧
      cfg.LogCollection.LogsURLs.length = 0
  · simp [h1] at h
  · rw [if_neg h1] at h
    by_cases h2 : cfg.Watchers.length = 0
    · simp [h2] at h
    · rw [if_neg h2] at h
      cases hp : prepareWatchers libs 0 cfg.Watchers with
      | error e => simp [hp] at h
      | ok ws =>
        simp only [hp, Except.ok.injEq] at h
        subst h
        refine ⟨?_, ?_, rfl, rfl⟩
        · rintro ⟨ha, hb⟩
          exact h1 ⟨ha, by rw [hb]; rfl⟩
        · intro hnil
          exact h2 (by rw [hnil]; rfl)


/-- C10: `LoadConfig` returns an error for every decoded configuration in which
`googleLogListURL` is blank and `logsURLs` is empty, or there is no watcher, or
some watcher has both `glob` and `regexp` non-blank, or some watcher has both
blank, or some watcher has no notifier, whatever the pattern and sender
libraries answer.  Every configuration it returns has a log source, at least one
watcher, and for every watcher exactly one pattern given, the matching kind
(regex or glob, never none) with its compiled pattern, and at least one
notifier. -/
theorem C10_LoadConfig_validates (libs : Libraries) (cfg : Config) :
    (((TrimSpace cfg.LogCollection.GoogleLogListURL = "" ∧ cfg.LogCollection.LogsURLs = []) ∨
      cfg.Watchers = [] ∨
      (∃ w ∈ cfg.Watchers, TrimSpace w.RegexpRaw ≠ "" ∧ TrimSpace w.Glob ≠ "") ∨
      (∃ w ∈ cfg.Watchers, TrimSpace w.RegexpRaw = "" ∧ TrimSpace w.Glob = "") ∨
      (∃ w ∈ cfg.Watchers, w.Notifiers = [])) →
        ∃ e, LoadConfig libs (.ok cfg) = .error e) ∧
    (∀ c, LoadConfig libs (.ok cfg) = .ok c →
      (TrimSpace c.LogCollection.GoogleLogListURL ≠ "" ∨ c.LogCollection.LogsURLs ≠ []) ∧
      c.Watchers ≠ [] ∧
      ∀ w ∈ c.Watchers,
        ((w.kind = patternKind.pkRegex ∧ TrimSpace w.RegexpRaw ≠ "" ∧ TrimSpace w.Glob = "" ∧
            w.re.isSome = true) ∨
         (w.kind = patternKind.pkGlob ∧ TrimSpace w.Glob ≠ "" ∧ TrimSpace w.RegexpRaw = "" ∧
            w.gl.isSome = true)) ∧
        w.Notifiers ≠ []) := by
  constructor
  · intro hbad
    cases hres : LoadConfig libs (.ok cfg) with
    | error e => exact ⟨e, rfl⟩
    | ok c =>
      exfalso
      obtain ⟨hsrc, hws, _, hprep⟩ := LoadConfig_ok libs cfg c hres
      obtain ⟨_, hin, _⟩ := prepareWatchers_ok libs cfg.Watchers 0 c.Watchers hprep
      rcases hbad with h | h | ⟨w, hw, hr, hq⟩ | ⟨w, hw, hr, hq⟩ | ⟨w, hw, hn⟩
      · exact hsrc h
      · exact hws h
      · obtain ⟨j, w1, hj⟩ := hin w hw
        obtain ⟨_, _, _, _, hk⟩ := prepareWatcher_ok libs j w w1 hj
        rcases hk with ⟨_, hq1, _⟩ | ⟨hr1, _⟩
        · exact hq hq1
        · exact hr hr1
      · obtain ⟨j, w1, hj⟩ := hin w hw
        obtain ⟨_, _, _, _, hk⟩ := prepareWatcher_ok libs j w w1 hj
        rcases hk with ⟨hr1, _⟩ | ⟨_, hq1, _⟩
        · exact hr1 hr
        · exact hq1 hq
      · obtain ⟨j, w1, hj⟩ := hin w hw
        obtain ⟨_, _, _, hn1, _⟩ := prepareWatcher_ok libs j w w1 hj
        exact hn1 hn
  · intro c hres
    obtain ⟨hsrc, hws, hlc, hprep⟩ := LoadConfig_ok libs cfg c hres
    obtain ⟨hlen, _, hout⟩ := prepareWatchers_ok libs cfg.Watchers 0 c.Watchers hprep
    refine ⟨?_, ?_, ?_⟩
    · rw [hlc]
      by_cases hu : TrimSpace cfg.LogCollection.GoogleLogListURL = ""
      · exact Or.inr (fun hl => hsrc ⟨hu, hl⟩)
      · exact Or.inl hu
    · intro hnil
      apply hws
      apply List.length_eq_zero.1
      rw [← hlen, hnil]
      rfl
    · intro w1 hw1
      obtain ⟨j, w, hj⟩ := hout w1 hw1
      obtain ⟨hg, hr, hn, hn1, hk⟩ := prepareWatcher_ok libs j w w1 hj
      rw [hg, hr, hn]
      refine ⟨?_, hn1⟩
      rcases hk with ⟨a, b, k, d⟩ | ⟨a, b, k, d⟩
      · exact Or.inl ⟨k, a, b, d⟩
      · exact Or.inr ⟨k, b, a, d⟩

/-- C10 on the samples: the watcher with both `glob` and `regexp` is refused, and
the configuration loaded from `sampleDecoded` has its static log source, one
watcher of kind glob, and one notifier. -/
theorem C10_LoadConfig_validates_witness :
    (∃ e, LoadConfig sampleLibraries (.ok sampleBothPatterns) = .error e) ∧
    ((TrimSpace sampleConfig.LogCollection.GoogleLogListURL ≠ "" ∨
        sampleConfig.LogCollection.LogsURLs ≠ []) ∧
      sampleConfig.Watchers ≠ [] ∧
      ∀ w ∈ sampleConfig.Watchers,
        ((w.kind = patternKind.pkRegex ∧ TrimSpace w.RegexpRaw ≠ "" ∧ TrimSpace w.Glob = "" ∧
            w.re.isSome = true) ∨
         (w.kind = patternKind.pkGlob ∧ TrimSpace w.Glob ≠ "" ∧ TrimSpace w.RegexpRaw = "" ∧
            w.gl.isSome = true)) ∧
        w.Notifiers ≠ []) :=
  ⟨(C10_LoadConfig_validates sampleLibraries sampleBothPatterns).1
      (Or.inr (Or.inr (Or.inl
        ⟨{ Glob := "*.io"
           RegexpRaw := "a"
           Notifiers := [{ ShoutrrrURL := "logger://" }] },
          List.mem_singleton.2 rfl, by decide, by decide⟩))),
   (C10_LoadConfig_validates sampleLibraries sampleDecoded).2 sampleConfig rfl⟩


/-! ## The watchers of a certificate -/

theorem scanDNSNames_watchers (config : Config) (l : Labels) (names : List String) :
    ∀ acc : List WatcherConfig × Metrics,
      (scanDNSNames config l names acc).1 =
        acc.1 ++ (names.map fun name => (config.WatchersFor name).1).flatten := by
  induction names with
  | nil => intro acc; simp [scanDNSNames]
  | cons n names ih =>
    rintro ⟨ws, m⟩
    simp only [scanDNSNames, List.map_cons, List.flatten_cons]
    by_cases hm : (config.WatchersFor n).2 = true
    · simp only [hm, not_true_eq_false, if_false]
      rw [ih]
      simp
    · have hnil : (config.WatchersFor n).1 = [] := by
        by_contra hne
        exact hm ((Config.WatchersFor_snd config n).2 hne)
      have hf : (config.WatchersFor n).2 = false := by simpa using hm
      simp only [hf, Bool.false_eq_true, not_false_eq_true, if_true]
      rw [ih, hnil]
      simp

theorem handleEntry_channel (dec : Decoders) (log : CtLogUpdateLog) (l : Labels)
    (config : Config) (lastTreeSize : Int) (st : LoopState) (entry : ctgo.LeafEntry) :
    (handleEntry dec log l config lastTreeSize st entry).world.channel =
      st.world.channel ++
        (specEvent dec config log (add64 lastTreeSize st.entriesHandled) entry).toList := by
  cases h1 : dec.RawLogEntryFromLeaf (add64 lastTreeSize st.entriesHandled) entry with
  | error e => simp [handleEntry, specEvent, h1]
  | ok data =>
    cases h2 : dec.ParseCertificate data with
    | error e => simp [handleEntry, specEvent, h1, h2]
    | ok cert =>
      have hw := scanDNSNames_watchers config l cert.DNSNames
        ((config.WatchersFor cert.CommonName).1,
          { st.world.metrics with
            prometheusLogCertsScanned := inc st.world.metrics.prometheusLogCertsScanned l })
      cases h3 : scanDNSNames config l cert.DNSNames
        ((config.WatchersFor cert.CommonName).1,
          { st.world.metrics with
            prometheusLogCertsScanned := inc st.world.metrics.prometheusLogCertsScanned l }) with
      | mk ws m2 =>
        rw [h3] at hw
        have hws : ws = specWatchers config cert := by
          simp only at hw
          rw [hw]
          simp [specWatchers]
        subst hws
        by_cases he : specWatchers config cert = []
        · simp [handleEntry, specEvent, h1, h2, h3, he]
        · have hpos : 0 < (specWatchers config cert).length := List.length_pos.2 he
          simp [handleEntry, specEvent, h1, h2, h3, he, hpos]


theorem specWatchers_eq_filter (config : Config) (cert : x509.Certificate) :
    specWatchers config cert =
      ((cert.CommonName :: cert.DNSNames).map fun name =>
        config.Watchers.filter (fun w => w.Match name)).flatten := by
  unfold specWatchers
  congr 1
  apply List.map_congr_left
  intro name _
  exact Config.WatchersFor_fst config name

theorem countP_matching (ws : List WatcherConfig) (P : WatcherConfig → Bool) (w : WatcherConfig)
    (hP : ws.filter P = [w]) (names : List String) :
    ((names.map fun name => ws.filter (fun v => v.Match name)).flatten).countP P =
      names.countP (fun name => w.Match name) := by
  induction names with
  | nil => simp
  | cons n names ih =>
    have hone : (ws.filter (fun v => v.Match n)).countP P = if w.Match n = true then 1 else 0 := by
      rw [List.countP_eq_length_filter, List.filter_filter]
      have hswap : ws.filter (fun a => P a && a.Match n) =
          (ws.filter P).filter (fun a => a.Match n) := by
        rw [List.filter_filter]
        congr 1
        funext a
        exact Bool.and_comm _ _
      rw [hswap, hP]
      by_cases hm : w.Match n = true
      · simp [hm]
      · simp [hm]
    rw [List.map_cons, List.flatten_cons, List.countP_append, ih, hone, List.countP_cons]
    omega

/-- C12: for a leaf that decodes and parses to a certificate with common name
`cn` and SAN DNS names `d1..dn`, the loop body of `updateLog` computes the watcher
list `WatchersFor(cn) ++ WatchersFor(d1) ++ ... ++ WatchersFor(dn)`, which is the
concatenation, name by name, of the config's watchers matching that name.  When
the list is non-empty exactly one instruction with the certificate, that list and
the log's description is sent; when it is empty none is sent.  The list is
non-empty exactly when some watcher matches `cn` or some `di`, and a watcher of
the config (singled out by `P`) occurs in it once for every name among
`cn, d1..dn` that it matches. -/
theorem C12_event_of_certificate (dec : Decoders) (log : CtLogUpdateLog) (l : Labels)
    (config : Config) (lastTreeSize : Int) (st : LoopState) (entry : ctgo.LeafEntry)
    (data : List UInt8) (cert : x509.Certificate)
    (hleaf : dec.RawLogEntryFromLeaf (add64 lastTreeSize st.entriesHandled) entry = .ok data)
    (hcert : dec.ParseCertificate data = .ok cert) :
    specWatchers config cert =
      ((cert.CommonName :: cert.DNSNames).map fun name =>
        config.Watchers.filter (fun w => w.Match name)).flatten ∧
    (specWatchers config cert ≠ [] →
      (handleEntry dec log l config lastTreeSize st entry).world.channel =
        st.world.channel ++
          [{ Certificate := cert
             Watchers := specWatchers config cert
             LogDescription := log.Description }]) ∧
    (specWatchers config cert = [] →
      (handleEntry dec log l config lastTreeSize st entry).world.channel = st.world.channel) ∧
    (specWatchers config cert ≠ [] ↔
      ∃ name ∈ cert.CommonName :: cert.DNSNames, ∃ w ∈ config.Watchers, w.Match name = true) ∧
    (∀ (P : WatcherConfig → Bool) (w : WatcherConfig), config.Watchers.filter P = [w] →
      (specWatchers config cert).countP P =
        (cert.CommonName :: cert.DNSNames).countP (fun name => w.Match name)) := by
  have hch := handleEntry_channel dec log l config lastTreeSize st entry
  simp only [specEvent, hleaf, hcert] at hch
  refine ⟨specWatchers_eq_filter config cert, ?_, ?_, ?_, ?_⟩
  · intro hne
    rw [hch]
    simp [hne]
  · intro hnil
    rw [hch]
    simp [hnil]
  · rw [specWatchers_eq_filter]
    constructor
    · intro hne
      obtain ⟨w, hw⟩ := List.exists_mem_of_ne_nil _ hne
      rw [List.mem_flatten] at hw
      obtain ⟨ws, hws, hwin⟩ := hw
      obtain ⟨name, hname, rfl⟩ := List.mem_map.1 hws
      rw [List.mem_filter] at hwin
      exact ⟨name, hname, w, hwin.1, hwin.2⟩
    · rintro ⟨name, hname, w, hw, hm⟩ hnil
      have hmem : w ∈ ((cert.CommonName :: cert.DNSNames).map fun name =>
          config.Watchers.filter (fun w => w.Match name)).flatten :=
        List.mem_flatten.2 ⟨_, List.mem_map.2 ⟨name, hname, rfl⟩, List.mem_filter.2 ⟨hw, hm⟩⟩
      rw [hnil] at hmem
      exact absurd hmem (List.not_mem_nil _)
  · intro P w hP
    rw [specWatchers_eq_filter]
    exact countP_matching config.Watchers P w hP _

/-- C12 on `sampleCert` under `sampleConfig`: the glob `*.io` matches the common
name `a.io` and the DNS names `a.io` and `c.io`, so one instruction is sent and
the watcher stands three times in its list. -/
theorem C12_event_of_certificate_witness :
    (handleEntry sampleCertDecoders sampleLog sampleLabels sampleConfig 100 {}
        sampleEntry).world.channel =
      [] ++ [{ Certificate := sampleCert
               Watchers := specWatchers sampleConfig sampleCert
               LogDescription := sampleLog.Description }] ∧
    (specWatchers sampleConfig sampleCert).countP (fun w => w.Glob == "*.io") =
      (sampleCert.CommonName :: sampleCert.DNSNames).countP
        (fun name => sampleGlobWatcher.Match name) ∧
    (sampleCert.CommonName :: sampleCert.DNSNames).countP
        (fun name => sampleGlobWatcher.Match name) = 3 :=
  ⟨(C12_event_of_certificate sampleCertDecoders sampleLog sampleLabels sampleConfig 100 {}
      sampleEntry sampleEntry.LeafInput sampleCert rfl rfl).2.1
      (fun h => absurd (congrArg List.length h) (by decide)),
   (C12_event_of_certificate sampleCertDecoders sampleLog sampleLabels sampleConfig 100 {}
      sampleEntry sampleEntry.LeafInput sampleCert rfl rfl).2.2.2.2
      (fun w => w.Glob == "*.io") sampleGlobWatcher rfl,
   by decide⟩


/-! ## The entry loop -/

theorem scanDNSNames_certsScanned (config : Config) (l : Labels) (names : List String) :
    ∀ acc : List WatcherConfig × Metrics,
      (scanDNSNames config l names acc).2.prometheusLogCertsScanned =
        acc.2.prometheusLogCertsScanned := by
  induction names with
  | nil => intro acc; rfl
  | cons n names ih =>
    rintro ⟨ws, m⟩
    simp only [scanDNSNames]
    split
    · rw [ih]
    · rw [ih]

theorem handleEntry_counts (dec : Decoders) (log : CtLogUpdateLog) (l : Labels)
    (config : Config) (lastTreeSize : Int) (st : LoopState) (entry : ctgo.LeafEntry) :
    (handleEntry dec log l config lastTreeSize st entry).entriesHandled =
        add64 st.entriesHandled 1 ∧
    (handleEntry dec log l config lastTreeSize st entry).world.metrics.prometheusLogCertsScanned =
        inc st.world.metrics.prometheusLogCertsScanned l := by
  cases h1 : dec.RawLogEntryFromLeaf (add64 lastTreeSize st.entriesHandled) entry with
  | error e => simp [handleEntry, h1]
  | ok data =>
    cases h2 : dec.ParseCertificate data with
    | error e => simp [handleEntry, h1, h2]
    | ok cert =>
      have h := scanDNSNames_certsScanned config l cert.DNSNames
        ((config.WatchersFor cert.CommonName).1,
          { st.world.metrics with
            prometheusLogCertsScanned := inc st.world.metrics.prometheusLogCertsScanned l })
      cases h3 : scanDNSNames config l cert.DNSNames
        ((config.WatchersFor cert.CommonName).1,
          { st.world.metrics with
            prometheusLogCertsScanned := inc st.world.metrics.prometheusLogCertsScanned l }) with
      | mk ws m2 =>
        rw [h3] at h
        by_cases hw : ws.length > 0
        · simp [handleEntry, h1, h2, h3, hw]
          exact h
        · simp [handleEntry, h1, h2, h3, hw]
          exact h

theorem indexedFrom_append (es : List ctgo.LeafEntry) :
    ∀ (index : Int) (fs : List ctgo.LeafEntry),
      indexedFrom index (es ++ fs) =
        indexedFrom index es ++ indexedFrom (index + es.length) fs := by
  induction es with
  | nil => intro index fs; simp [indexedFrom]
  | cons e es ih =>
    intro index fs
    have hidx : index + ((e :: es).length : Int) = index + 1 + (es.length : Int) := by
      simp only [List.length_cons, Nat.cast_add, Nat.cast_one]
      omega
    rw [hidx]
    show (index, e) :: indexedFrom (index + 1) (es ++ fs) = _
    rw [ih]
    rfl

/-- The loop over one response: `entriesHandled` and the scan counter advance by
the length of the response, and the instructions sent are those of the entries
decoded at the consecutive indices from `prev + entriesHandled`. -/
theorem foldl_handleEntry_spec (dec : Decoders) (log : CtLogUpdateLog) (l : Labels)
    (config : Config) (prev treeSize : Int) (hrp : isInt64 prev) (hrt : isInt64 treeSize)
    (es : List ctgo.LeafEntry) :
    ∀ st : LoopState, 0 ≤ st.entriesHandled →
      st.entriesHandled + es.length ≤ treeSize - prev →
      treeSize - prev ≤ 9223372036854775807 →
      (es.foldl (handleEntry dec log l config prev) st).entriesHandled =
          st.entriesHandled + es.length ∧
      (es.foldl (handleEntry dec log l config prev) st).world.metrics.prometheusLogCertsScanned l =
          st.world.metrics.prometheusLogCertsScanned l + es.length ∧
      (es.foldl (handleEntry dec log l config prev) st).world.channel =
          st.world.channel ++
            (indexedFrom (prev + st.entriesHandled) es).filterMap
              (fun ie => specEvent dec config log ie.1 ie.2) := by
  induction es with
  | nil => intro st _ _ _; simp [indexedFrom]
  | cons e es ih =>
    intro st h0 hle hG
    simp only [List.length_cons, Nat.cast_add, Nat.cast_one] at hle
    unfold isInt64 at hrp hrt
    obtain ⟨c1, c2⟩ := handleEntry_counts dec log l config prev st e
    have c3 := handleEntry_channel dec log l config prev st e
    have e1 : add64 st.entriesHandled 1 = st.entriesHandled + 1 := by
      unfold add64 wrap64; omega
    have e2 : add64 prev st.entriesHandled = prev + st.entriesHandled := by
      unfold add64 wrap64; omega
    rw [e1] at c1
    rw [e2] at c3
    obtain ⟨a1, a2, a3⟩ := ih (handleEntry dec log l config prev st e)
      (by rw [c1]; omega) (by rw [c1]; omega) hG
    rw [List.foldl_cons]
    refine ⟨?_, ?_, ?_⟩
    · rw [a1, c1]
      simp only [List.length_cons, Nat.cast_add, Nat.cast_one]
      omega
    · rw [a2, c2]
      simp only [inc, if_true, List.length_cons]
      omega
    · rw [a3, c3, c1]
      simp only [indexedFrom, List.filterMap_cons, List.append_assoc]
      congr 1
      have hidx : prev + (st.entriesHandled + 1) = prev + st.entriesHandled + 1 := by omega
      rw [hidx]
      cases specEvent dec config log (prev + st.entriesHandled) e <;> rfl


/-- The entry loop against a server that answers every well-formed request with
at least one and at most the requested number of entries: with fuel for `gap`
requests it ends with the loop condition false, and its requests, its scan
counter and the instructions it sent are those of `specExchanges`. -/
theorem entryLoop_spec (server : LogServer) (dec : Decoders) (log : CtLogUpdateLog) (l : Labels)
    (config : Config) (prev treeSize : Int) (hrp : isInt64 prev) (hrt : isInt64 treeSize)
    (hG : treeSize - prev ≤ 9223372036854775807)
    (hsrv : ∀ (k : Nat) (handled : Int), 0 ≤ handled → handled < treeSize - prev →
      (getEntries (server.entries k (prev + handled) (treeSize - 1))).2 = none ∧
      1 ≤ (getEntries (server.entries k (prev + handled) (treeSize - 1))).1.length ∧
      ((getEntries (server.entries k (prev + handled) (treeSize - 1))).1.length : Int) ≤
        (treeSize - 1) - (prev + handled) + 1)
    (fuel : Nat) :
    ∀ st : LoopState, st.exhausted = false → 0 ≤ st.entriesHandled →
      st.entriesHandled ≤ treeSize - prev → treeSize - prev - st.entriesHandled ≤ fuel →
      (entryLoop server dec log l config prev treeSize (treeSize - prev) fuel st).exhausted =
          false ∧
      (entryLoop server dec log l config prev treeSize (treeSize - prev) fuel st).world.requests =
          st.world.requests ++
            (specExchanges server prev treeSize fuel st.world.requests.length
              st.entriesHandled).map Prod.fst ∧
      ((specExchanges server prev treeSize fuel st.world.requests.length
          st.entriesHandled).length : Int) ≤ treeSize - prev - st.entriesHandled ∧
      ((((specExchanges server prev treeSize fuel st.world.requests.length
          st.entriesHandled).map Prod.snd).flatten.length : Nat) : Int) =
        treeSize - prev - st.entriesHandled ∧
      (entryLoop server dec log l config prev treeSize (treeSize - prev) fuel
          st).world.metrics.prometheusLogCertsScanned l =
        st.world.metrics.prometheusLogCertsScanned l +
          ((specExchanges server prev treeSize fuel st.world.requests.length
            st.entriesHandled).map Prod.snd).flatten.length ∧
      (entryLoop server dec log l config prev treeSize (treeSize - prev) fuel st).world.channel =
        st.world.channel ++
          (indexedFrom (prev + st.entriesHandled)
            ((specExchanges server prev treeSize fuel st.world.requests.length
              st.entriesHandled).map Prod.snd).flatten).filterMap
            (fun ie => specEvent dec config log ie.1 ie.2) := by
  induction fuel with
  | zero =>
    intro st hex h0 hle hfuel
    simp only [Nat.cast_zero] at hfuel
    have hlt : ¬ st.entriesHandled < treeSize - prev := by omega
    have hX : specExchanges server prev treeSize 0 st.world.requests.length
        st.entriesHandled = [] := rfl
    rw [hX]
    refine ⟨?_, ?_, ?_, ?_, ?_, ?_⟩
    · simp [entryLoop, hlt]
    · simp [entryLoop]
    · simp only [List.length_nil, Nat.cast_zero]; omega
    · simp only [List.map_nil, List.flatten_nil, List.length_nil, Nat.cast_zero]; omega
    · simp [entryLoop]
    · simp [entryLoop, indexedFrom]
  | succ fuel ih =>
    intro st hex h0 hle hfuel
    by_cases hc : st.entriesHandled < treeSize - prev
    · unfold isInt64 at hrp hrt
      have e2 : add64 prev st.entriesHandled = prev + st.entriesHandled := by
        unfold add64 wrap64; omega
      have e3 : sub64 treeSize 1 = treeSize - 1 := by
        unfold sub64 wrap64; omega
      obtain ⟨s1, s2, s3⟩ := hsrv st.world.requests.length st.entriesHandled h0 hc
      cases he : getEntries (server.entries st.world.requests.length
          (prev + st.entriesHandled) (treeSize - 1)) with
      | mk es err =>
        rw [he] at s1 s2 s3
        simp only at s1 s2 s3
        subst s1
        obtain ⟨st1, hst1⟩ : ∃ st1, st1 = es.foldl (handleEntry dec log l config prev)
            { st with world := { st.world with
              metrics := { st.world.metrics with
                prometheusLogEntryRequest :=
                  inc st.world.metrics.prometheusLogEntryRequest l }
              requests := st.world.requests ++
                [(prev + st.entriesHandled, treeSize - 1)] } } := ⟨_, rfl⟩
        obtain ⟨f1, f2, f3⟩ := foldl_handleEntry_spec dec log l config prev treeSize
          (by unfold isInt64; exact hrp) (by unfold isInt64; exact hrt) es
          { st with world := { st.world with
              metrics := { st.world.metrics with
                prometheusLogEntryRequest :=
                  inc st.world.metrics.prometheusLogEntryRequest l }
              requests := st.world.requests ++
                [(prev + st.entriesHandled, treeSize - 1)] } }
          h0 (by simp only; omega) hG
        obtain ⟨_, k2, _, k4⟩ := foldl_handleEntry_keeps dec log l config prev es
          { st with world := { st.world with
              metrics := { st.world.metrics with
                prometheusLogEntryRequest :=
                  inc st.world.metrics.prometheusLogEntryRequest l }
              requests := st.world.requests ++
                [(prev + st.entriesHandled, treeSize - 1)] } }
        rw [← hst1] at f1 f2 f3 k2 k4
        simp only at f1 f2 f3 k2 k4
        have hloop : entryLoop server dec log l config prev treeSize (treeSize - prev)
            (fuel + 1) st =
            entryLoop server dec log l config prev treeSize (treeSize - prev) fuel st1 := by
          rw [hst1]
          simp only [entryLoop, hc, if_true, e2, e3, he]
        have hX : specExchanges server prev treeSize (fuel + 1) st.world.requests.length
            st.entriesHandled =
            ((prev + st.entriesHandled, treeSize - 1), es) ::
              specExchanges server prev treeSize fuel (st.world.requests.length + 1)
                (st.entriesHandled + es.length) := by
          simp only [specExchanges, hc, if_true, he]
        have hlen : st1.world.requests.length = st.world.requests.length + 1 := by
          rw [k2]; simp
        obtain ⟨i1, i2, i3, i4, i5, i6⟩ := ih st1 (by rw [k4]; exact hex)
          (by rw [f1]; omega) (by rw [f1]; omega)
          (by rw [f1]; push_cast at hfuel ⊢; omega)
        rw [hlen, f1] at i2 i3 i4 i5 i6
        rw [hloop, hX]
        clear hloop hX hst1 ih
        generalize specExchanges server prev treeSize fuel (st.world.requests.length + 1)
          (st.entriesHandled + es.length) = X at i2 i3 i4 i5 i6 ⊢
        refine ⟨i1, ?_, ?_, ?_, ?_, ?_⟩
        · rw [i2, k2]; simp
        · simp only [List.length_cons, Nat.cast_add, Nat.cast_one]; omega
        · simp only [List.map_cons, List.flatten_cons, List.length_append, Nat.cast_add]; omega
        · rw [i5, f2]
          simp only [List.map_cons, List.flatten_cons, List.length_append]
          omega
        · have hidx : prev + st.entriesHandled + (es.length : Int) =
              prev + (st.entriesHandled + es.length) := by omega
          rw [i6, f3]
          simp only [List.map_cons, List.flatten_cons, indexedFrom_append,
            List.filterMap_append, List.append_assoc, hidx]
    · have heq : st.entriesHandled = treeSize - prev := by omega
      have hloop : entryLoop server dec log l config prev treeSize (treeSize - prev)
          (fuel + 1) st = st := by
        simp only [entryLoop, hc, if_false]
      have hX : specExchanges server prev treeSize (fuel + 1) st.world.requests.length
          st.entriesHandled = [] := by
        simp only [specExchanges, hc, if_false]
      rw [hloop, hX]
      refine ⟨hex, ?_, ?_, ?_, ?_, ?_⟩
      · simp
      · simp only [List.length_nil, Nat.cast_zero]; omega
      · simp only [List.map_nil, List.flatten_nil, List.length_nil, Nat.cast_zero]; omega
      · simp
      · simp [indexedFrom]


/-- C11: an update with `prev` present and non-zero and
`0 < gap = treeSize - prev <= MaxHandleableLogGap`, against a server that answers
every request `get-entries(prev + handled, treeSize - 1)` with no error and with
at least one and at most `end - start + 1` entries, returns (success) once it has
fuel for `gap` requests.  Its requests are those of `specExchanges`: each is
`(prev + handled, treeSize - 1)`, with `handled` advanced by the length of each
response; they are at most `gap`, the entries returned are `gap` in all, the scan
counter grows by exactly that number (at most `MaxHandleableLogGap`), and the
instructions sent are those of the `i`-th returned entry decoded at index
`prev + i`, for arbitrary decoders. -/
theorem C11_entry_loop_handles_gap (server : LogServer) (dec : Decoders) (fuel : Nat)
    (log : CtLogUpdateLog) (l : Labels) (config : Config) (w : World) (prev treeSize : Int)
    (hprev : w.lastTreeSizes log.LogID = some prev) (hnz : prev ≠ 0)
    (hsth : getSTH server.sth = .ok treeSize)
    (hrp : isInt64 prev) (hrt : isInt64 treeSize)
    (hrm : isInt64 config.LogCollection.MaxHandleableLogGap)
    (hpos : 0 < treeSize - prev)
    (hmax : treeSize - prev ≤ config.LogCollection.MaxHandleableLogGap)
    (hsrv : ∀ (k : Nat) (handled : Int), 0 ≤ handled → handled < treeSize - prev →
      (getEntries (server.entries k (prev + handled) (treeSize - 1))).2 = none ∧
      1 ≤ (getEntries (server.entries k (prev + handled) (treeSize - 1))).1.length ∧
      ((getEntries (server.entries k (prev + handled) (treeSize - 1))).1.length : Int) ≤
        (treeSize - 1) - (prev + handled) + 1)
    (hfuel : treeSize - prev ≤ fuel) :
    (updateLog server dec fuel log l config w).returned = some true ∧
    (updateLog server dec fuel log l config w).world.requests =
      w.requests ++ (specExchanges server prev treeSize fuel w.requests.length 0).map Prod.fst ∧
    ((specExchanges server prev treeSize fuel w.requests.length 0).length : Int) ≤
      treeSize - prev ∧
    ((((specExchanges server prev treeSize fuel w.requests.length 0).map
        Prod.snd).flatten.length : Nat) : Int) = treeSize - prev ∧
    (updateLog server dec fuel log l config w).world.metrics.prometheusLogCertsScanned l =
      w.metrics.prometheusLogCertsScanned l +
        ((specExchanges server prev treeSize fuel w.requests.length 0).map
          Prod.snd).flatten.length ∧
    ((((specExchanges server prev treeSize fuel w.requests.length 0).map
        Prod.snd).flatten.length : Nat) : Int) ≤ config.LogCollection.MaxHandleableLogGap ∧
    (updateLog server dec fuel log l config w).world.channel =
      w.channel ++
        (indexedFrom prev ((specExchanges server prev treeSize fuel w.requests.length 0).map
          Prod.snd).flatten).filterMap (fun ie => specEvent dec config log ie.1 ie.2) := by
  have hG : treeSize - prev ≤ 9223372036854775807 := by
    unfold isInt64 at hrm; omega
  have hgap : sub64 treeSize prev = treeSize - prev := by
    unfold sub64 wrap64; omega
  have hng : ¬ sub64 treeSize prev > config.LogCollection.MaxHandleableLogGap := by
    rw [hgap]; omega
  have hnz0 : ¬ sub64 treeSize prev = 0 := by
    rw [hgap]; omega
  obtain ⟨i1, i2, i3, i4, i5, i6⟩ := entryLoop_spec server dec log l config prev treeSize
    hrp hrt hG hsrv fuel
    { world := { w with
        lastTreeSizes := w.lastTreeSizes.Store log.LogID treeSize
        metrics := { w.metrics with
          prometheusLogTreeSize := fun k =>
            if k = l then some treeSize else w.metrics.prometheusLogTreeSize k } } }
    rfl (le_refl _) (by simp only; omega) (by simp only; omega)
  simp only [sub_zero, add_zero] at i2 i3 i4 i5 i6
  have hres : updateLog server dec fuel log l config w =
      { returned := some true
        world :=
          { (entryLoop server dec log l config prev treeSize (treeSize - prev) fuel
              { world := { w with
                  lastTreeSizes := w.lastTreeSizes.Store log.LogID treeSize
                  metrics := { w.metrics with
                    prometheusLogTreeSize := fun k =>
                      if k = l then some treeSize
                      else w.metrics.prometheusLogTreeSize k } } }).world with
            metrics :=
              { (entryLoop server dec log l config prev treeSize (treeSize - prev) fuel
                  { world := { w with
                      lastTreeSizes := w.lastTreeSizes.Store log.LogID treeSize
                      metrics := { w.metrics with
                        prometheusLogTreeSize := fun k =>
                          if k = l then some treeSize
                          else w.metrics.prometheusLogTreeSize k } } }).world.metrics with
                prometheusLogIngestDuration :=
                  inc (entryLoop server dec log l config prev treeSize (treeSize - prev) fuel
                    { world := { w with
                        lastTreeSizes := w.lastTreeSizes.Store log.LogID treeSize
                        metrics := { w.metrics with
                          prometheusLogTreeSize := fun k =>
                            if k = l then some treeSize
                            else w.metrics.prometheusLogTreeSize k } } }).world.metrics.prometheusLogIngestDuration
                    l } } } := by
    simp only [updateLog, hsth, SyncMap.Swap, hprev, if_neg hnz, if_neg hng, if_neg hnz0]
    rw [hgap, i1]
    simp
  rw [hres]
  exact ⟨rfl, i2, i3, i4, i5, by rw [i4]; exact hmax, i6⟩


/-- C11 on `sampleLog` last seen at tree size 100, the server now at 105 and
answering two entries at a time: three requests, from 100, 102 and 104, five
entries scanned, five instructions sent (every leaf reads as `sampleCert`, which
the watcher matches). -/
theorem C11_entry_loop_handles_gap_witness :
    (updateLog (batchServer 105) sampleCertDecoders 5 sampleLog sampleLabels sampleConfig
      worldAt100).returned = some true ∧
    (updateLog (batchServer 105) sampleCertDecoders 5 sampleLog sampleLabels sampleConfig
      worldAt100).world.requests =
      worldAt100.requests ++
        (specExchanges (batchServer 105) 100 105 5 worldAt100.requests.length 0).map Prod.fst ∧
    (specExchanges (batchServer 105) 100 105 5 worldAt100.requests.length 0).map Prod.fst =
      [(100, 104), (102, 104), (104, 104)] ∧
    (updateLog (batchServer 105) sampleCertDecoders 5 sampleLog sampleLabels sampleConfig
      worldAt100).world.metrics.prometheusLogCertsScanned sampleLabels =
      worldAt100.metrics.prometheusLogCertsScanned sampleLabels +
        ((specExchanges (batchServer 105) 100 105 5 worldAt100.requests.length 0).map
          Prod.snd).flatten.length ∧
    ((specExchanges (batchServer 105) 100 105 5 worldAt100.requests.length 0).map
      Prod.snd).flatten.length = 5 := by
  have h := C11_entry_loop_handles_gap (batchServer 105) sampleCertDecoders 5 sampleLog
    sampleLabels sampleConfig worldAt100 100 105 rfl (by decide) rfl (by decide) (by decide)
    (by decide) (by decide) (by decide)
    (by
      intro k handled h0 h1
      simp only [getEntries, batchServer, List.length_replicate]
      exact ⟨trivial, by omega, by omega⟩)
    (by decide)
  exact ⟨h.1, h.2.1, by decide, h.2.2.2.2.1, by decide⟩

end CertAlert
